import Mathlib

/-!
Shallow embedding of the racing-simulation engine
(src/simulation/{car,physics,controller,collision,track,simulation,markov_chain,discrete_event}.py)
over exact rationals.  Transcendental operations (sqrt, cos, sin, tan, atan2)
and the constant pi are abstracted into an `Ops` record so that every
definition stays computable; concrete instances used in witnesses agree with
the real functions at every point at which they are evaluated.
-/

set_option maxRecDepth 4000

-- Batteries marks the rational-number operations irreducible, which blocks
-- `decide` on concrete rational computations; restore reducibility locally.
attribute [local semireducible] Rat.mul Rat.add Rat.sub Rat.inv Rat.ofScientific

namespace Racing

/-- Abstract numeric backend for the transcendental operations used by the
Python code (`np.sqrt`, `np.cos`, `np.sin`, `np.tan`, `np.arctan2`, `np.pi`). -/
structure Ops where
  sqrt : ℚ → ℚ
  cos : ℚ → ℚ
  sin : ℚ → ℚ
  tan : ℚ → ℚ
  atan2 : ℚ → ℚ → ℚ
  pi : ℚ

/-- `np.clip(x, lo, hi)`: apply the lower bound first, then the upper bound. -/
def qclip (x lo hi : ℚ) : ℚ := min (max x lo) hi

/-- Python's float `%` operator: `a - b * floor(a / b)`. -/
def qmod (a b : ℚ) : ℚ := a - b * (⌊a / b⌋ : ℚ)

/-- `np.round` (half-to-even) followed by `int(...)`. -/
def np_round (q : ℚ) : ℤ :=
  let f := ⌊q⌋
  let r := q - (f : ℚ)
  if r < 1/2 then f
  else if r > 1/2 then f + 1
  else if Even f then f else f + 1

/-- Behavioral strategy of a car; `eliminated` is a state of the Markov chain. -/
inductive Strategy where
  | aggressive
  | balanced
  | cautious
  | eliminated
deriving DecidableEq

/-- One record of `Car.trajectory` (car.py, `update_state`). -/
structure TrajPoint where
  x : ℚ
  y : ℚ
  yaw : ℚ
  velocity : ℚ
  acceleration : ℚ
  s_position : ℚ
  lap : ℕ
deriving DecidableEq

/-- The `elimination_reason` strings, abstracted to their data content. -/
inductive ElimReason where
  | collisionRoll (roll : ℕ) (threshold : ℕ)
  | markovTransition
deriving DecidableEq

/-- `IDMController` (controller.py). `delta` is set to 4 by the constructor. -/
structure IDMController where
  a_max : ℚ
  b_max : ℚ
  min_gap : ℚ
  reaction_time : ℚ
  desired_speed : ℚ
  delta : ℕ
deriving DecidableEq

/-- `PurePursuitController` (controller.py). -/
structure PurePursuitController where
  lookahead_distance : ℚ
  wheelbase : ℚ
deriving DecidableEq

/-- `CombinedController` (controller.py). -/
structure CombinedController where
  idm : IDMController
  pure_pursuit : PurePursuitController
deriving DecidableEq

/-- The `controller` section of the YAML configuration. -/
structure ControllerConfig where
  a_max : ℚ
  b_max : ℚ
  min_gap : ℚ
  reaction_time : ℚ
  wheelbase : ℚ
  lookahead_distance : ℚ
  desired_speed : Strategy → ℚ

/-- `CombinedController.__init__` (controller.py). -/
def mk_combined_controller (cfg : ControllerConfig) (strategy : Strategy) : CombinedController :=
  { idm := { a_max := cfg.a_max, b_max := cfg.b_max, min_gap := cfg.min_gap,
             reaction_time := cfg.reaction_time, desired_speed := cfg.desired_speed strategy,
             delta := 4 },
    pure_pursuit := { lookahead_distance := cfg.lookahead_distance, wheelbase := cfg.wheelbase } }

/-- `Car` (car.py): kinematic state, strategy parameters and bookkeeping. -/
structure Car where
  car_id : ℕ
  strategy_type : Strategy
  x : ℚ
  y : ℚ
  yaw : ℚ
  velocity : ℚ
  acceleration : ℚ
  lane : ℚ
  target_lane : ℚ
  lap_count : ℕ
  s_position : ℚ
  lane_change_timer : ℚ
  desired_speed : ℚ
  max_accel : ℚ
  max_brake : ℚ
  reaction_time : ℚ
  min_gap : ℚ
  wheelbase : ℚ
  lookahead_distance : ℚ
  speed_multiplier : ℚ
  trajectory : List TrajPoint
  collision_flag : Bool
  collision_count : ℕ
  total_collision_severity : ℚ
  eliminated : Bool
  elimination_time : Option ℚ
  elimination_reason : Option ElimReason
  lap_times : List ℚ
  last_lap_start_s : ℚ
  last_lap_start_time : ℚ
  controller : CombinedController
deriving DecidableEq

instance : Inhabited Car :=
  ⟨{ car_id := 0, strategy_type := .balanced, x := 0, y := 0, yaw := 0, velocity := 0,
     acceleration := 0, lane := 0, target_lane := 0, lap_count := 0, s_position := 0,
     lane_change_timer := 0, desired_speed := 0, max_accel := 0, max_brake := 0,
     reaction_time := 0, min_gap := 0, wheelbase := 1, lookahead_distance := 0,
     speed_multiplier := 0, trajectory := [], collision_flag := false, collision_count := 0,
     total_collision_severity := 0, eliminated := false, elimination_time := none,
     elimination_reason := none, lap_times := [], last_lap_start_s := 0,
     last_lap_start_time := 0,
     controller := ⟨⟨0, 0, 0, 0, 0, 4⟩, ⟨0, 1⟩⟩ }⟩

/-- `Car.get_max_speed` (car.py line 152): `desired_speed * speed_multiplier`. -/
def Car.get_max_speed (c : Car) : ℚ := c.desired_speed * c.speed_multiplier

/-- `update_car_dynamics` (physics.py): kinematic bicycle model for one tick. -/
def update_car_dynamics (ops : Ops) (car : Car) (acceleration steering_angle dt : ℚ) : Car :=
  -- Update velocity, then clamp to [0, max_speed]
  let v1 := car.velocity + acceleration * dt
  let max_speed := car.get_max_speed
  let v2 := qclip v1 0 max_speed
  -- Position update
  let x' := car.x + v2 * ops.cos car.yaw * dt
  let y' := car.y + v2 * ops.sin car.yaw * dt
  -- Heading update, guarded against near-zero speed; yaw normalized mod 2*pi
  let yaw' :=
    if v2 > 1/100 then
      qmod (car.yaw + (v2 / car.wheelbase) * ops.tan steering_angle * dt) (2 * ops.pi)
    else car.yaw
  { car with velocity := v2, x := x', y := y', yaw := yaw', acceleration := acceleration }

/-- One lane of the track (sampled offset curve, track.py `_generate_lanes`). -/
structure TrackLane where
  lane_x : List ℚ
  lane_y : List ℚ
deriving DecidableEq

/-- `Track` (track.py): sampled centerline, cumulative arc-length table,
total length and per-lane sampled curves. -/
structure Track where
  centerline_x : List ℚ
  centerline_y : List ℚ
  arc_lengths : List ℚ
  total_length : ℚ
  lanes : List TrackLane
  num_lanes : ℕ
deriving DecidableEq

/-- `scipy.interpolate.interp1d(xs, ys, kind='linear', fill_value='extrapolate')`
for strictly increasing knots `xs`: linear interpolation on the containing
segment, linear extrapolation on the first/last segment outside the range. -/
def interp_linear : List ℚ → List ℚ → ℚ → ℚ
  | [_], [y0], _ => y0
  | x0 :: x1 :: xs, y0 :: y1 :: ys, q =>
    if q ≤ x1 then y0 + (y1 - y0) * (q - x0) / (x1 - x0)
    else
      match xs, ys with
      | [], _ => y0 + (y1 - y0) * (q - x0) / (x1 - x0)
      | _, [] => y0 + (y1 - y0) * (q - x0) / (x1 - x0)
      | xs2, ys2 => interp_linear (x1 :: xs2) (y1 :: ys2) q
  | _, _, _ => 0

/-- `Track.get_target_point` (track.py lines 182-209). -/
def Track.get_target_point (track : Track) (s lookahead_distance : ℚ) (lane : Option ℤ) :
    ℚ × ℚ :=
  -- Normalize s to [0, total_length), then advance by the lookahead, wrapping
  let s1 := qmod s track.total_length
  let target_s := qmod (s1 + lookahead_distance) track.total_length
  match lane with
  | some l =>
    if 0 ≤ l ∧ l < (track.num_lanes : ℤ) then
      let ln := track.lanes.getD l.toNat ⟨[], []⟩
      (interp_linear track.arc_lengths ln.lane_x target_s,
       interp_linear track.arc_lengths ln.lane_y target_s)
    else
      (interp_linear track.arc_lengths track.centerline_x target_s,
       interp_linear track.arc_lengths track.centerline_y target_s)
  | none =>
    (interp_linear track.arc_lengths track.centerline_x target_s,
     interp_linear track.arc_lengths track.centerline_y target_s)

/-- The head of a list is its minimum-relevant value (`np.min` helper). -/
def list_min : List ℚ → ℚ
  | [] => 0
  | [x] => x
  | x :: xs => min x (list_min xs)

/-- `np.argmin`: index of the first occurrence of the minimum (0 on `[]`). -/
def np_argmin : List ℚ → ℕ
  | [] => 0
  | [_] => 0
  | x :: xs => if x ≤ list_min xs then 0 else np_argmin xs + 1

/-- Distances from the query point to every centerline sample
(track.py `project_car_position`, first statement). -/
def distance_list (ops : Ops) (track : Track) (x y : ℚ) : List ℚ :=
  List.zipWith (fun cx cy => ops.sqrt ((cx - x) ^ 2 + (cy - y) ^ 2))
    track.centerline_x track.centerline_y

/-- `Track.project_car_position` (track.py lines 211-244): coarse global
nearest-sample search followed by a local refinement window. -/
def Track.project_car_position (ops : Ops) (track : Track) (x y : ℚ) : ℚ :=
  let distances := distance_list ops track x y
  let closest_idx := np_argmin distances
  let search_range := min 50 (track.arc_lengths.length / 10)
  let start_idx := closest_idx - search_range
  let end_idx := min track.arc_lengths.length (closest_idx + search_range)
  let local_distances :=
    List.zipWith (fun cx cy => ops.sqrt ((cx - x) ^ 2 + (cy - y) ^ 2))
      ((track.centerline_x.take end_idx).drop start_idx)
      ((track.centerline_y.take end_idx).drop start_idx)
  let local_closest := np_argmin local_distances
  let refined_idx := start_idx + local_closest
  track.arc_lengths.getD refined_idx 0

/-- The refined index computed by `project_car_position` (same lets as above,
exposed for the refinement-equivalence claim). -/
def Track.project_refined_idx (ops : Ops) (track : Track) (x y : ℚ) : ℕ :=
  let distances := distance_list ops track x y
  let closest_idx := np_argmin distances
  let search_range := min 50 (track.arc_lengths.length / 10)
  let start_idx := closest_idx - search_range
  let end_idx := min track.arc_lengths.length (closest_idx + search_range)
  let local_distances :=
    List.zipWith (fun cx cy => ops.sqrt ((cx - x) ^ 2 + (cy - y) ^ 2))
      ((track.centerline_x.take end_idx).drop start_idx)
      ((track.centerline_y.take end_idx).drop start_idx)
  let local_closest := np_argmin local_distances
  start_idx + local_closest

/-- `Car.update_state` (car.py lines 75-108): reproject arc-length, detect lap
completion, advance the lap timer and append the trajectory sample. -/
def update_state (ops : Ops) (track : Track) (dt : ℚ) (car : Car) : Car :=
  let old_s := car.s_position
  let s := track.project_car_position ops car.x car.y
  let car1 := { car with s_position := s }
  let car2 :=
    if old_s > track.total_length * (9/10) ∧ s < track.total_length * (1/10) then
      let lt :=
        if car1.last_lap_start_time > 0 then car1.lap_times ++ [car1.last_lap_start_time]
        else car1.lap_times
      { car1 with lap_count := car1.lap_count + 1, lap_times := lt,
                  last_lap_start_s := s, last_lap_start_time := 0 }
    else car1
  let car3 := { car2 with last_lap_start_time := car2.last_lap_start_time + dt }
  { car3 with trajectory := car3.trajectory ++
      [⟨car3.x, car3.y, car3.yaw, car3.velocity, car3.acceleration, car3.s_position,
        car3.lap_count⟩] }

/-- Stable insertion into a list sorted by the distance component
(`list.sort(key=lambda x: x[1])` is a stable sort). -/
def insert_by_dist (p : Car × ℚ × ℚ) : List (Car × ℚ × ℚ) → List (Car × ℚ × ℚ)
  | [] => [p]
  | q :: qs => if p.2.1 < q.2.1 then p :: q :: qs else q :: insert_by_dist p qs

/-- Stable sort by distance (insertion sort). -/
def sort_by_dist (l : List (Car × ℚ × ℚ)) : List (Car × ℚ × ℚ) :=
  l.foldr insert_by_dist []

/-- `Car.sense_neighbors` (car.py lines 110-150): neighbors within `radius`
with their distance and line-of-sight relative velocity, sorted by distance. -/
def sense_neighbors (ops : Ops) (car : Car) (all_cars : List Car) (radius : ℚ) :
    List (Car × ℚ × ℚ) :=
  let neighbors := all_cars.filterMap (fun other =>
    if other.car_id = car.car_id then none
    else
      let dx := other.x - car.x
      let dy := other.y - car.y
      let distance := ops.sqrt (dx ^ 2 + dy ^ 2)
      if distance ≤ radius then
        let rel_vx := other.velocity * ops.cos other.yaw - car.velocity * ops.cos car.yaw
        let rel_vy := other.velocity * ops.sin other.yaw - car.velocity * ops.sin car.yaw
        let relative_velocity :=
          if distance > 0 then rel_vx * (dx / distance) + rel_vy * (dy / distance) else 0
        some (other, distance, relative_velocity)
      else none)
  sort_by_dist neighbors

/-- `IDMController.compute_acceleration` (controller.py lines 30-70). -/
def compute_acceleration (ops : Ops) (idm : IDMController) (car : Car)
    (leading_car : Option Car) (distance : Option ℚ) (relative_velocity : ℚ) : ℚ :=
  let v := car.velocity
  let v0 := car.desired_speed * car.speed_multiplier
  let free_term := 1 - (v / v0) ^ idm.delta
  let acceleration :=
    match leading_car, distance with
    | some _, some d =>
      let s0 := idm.min_gap
      let T := idm.reaction_time
      let dv := -relative_velocity
      let s_star := s0 + v * T + (v * dv) / (2 * ops.sqrt (idm.a_max * idm.b_max))
      let interaction_term := (s_star / max d (1/10)) ^ (2 : ℕ)
      idm.a_max * (free_term - interaction_term)
    | _, _ => idm.a_max * free_term
  qclip acceleration (-idm.b_max) idm.a_max

/-- `PurePursuitController.compute_steering_angle` (controller.py lines 89-126). -/
def compute_steering_angle (ops : Ops) (pp : PurePursuitController) (car : Car)
    (target_x target_y : ℚ) : ℚ :=
  let dx := target_x - car.x
  let dy := target_y - car.y
  let distance := ops.sqrt (dx ^ 2 + dy ^ 2)
  if distance < 1/10 then 0
  else
    let alpha := ops.atan2 dy dx - car.yaw
    let alpha2 := ops.atan2 (ops.sin alpha) (ops.cos alpha)
    let effective_lookahead := min distance pp.lookahead_distance
    let delta := ops.atan2 (2 * pp.wheelbase * ops.sin alpha2) effective_lookahead
    let max_steering := ops.pi / 6
    qclip delta (-max_steering) max_steering

/-- `CombinedController._check_lane_clear` (controller.py lines 151-190). -/
def check_lane_clear (ops : Ops) (car : Car) (target_lane : ℚ) (all_cars : List Car)
    (lookahead_distance : ℚ) : Bool :=
  if target_lane < 0 ∨ target_lane ≥ 5 then false
  else
    all_cars.all (fun other =>
      if other.car_id = car.car_id then true
      else if |other.lane - target_lane| > 1/2 then true
      else
        let dx := other.x - car.x
        let dy := other.y - car.y
        let projection := dx * ops.cos car.yaw + dy * ops.sin car.yaw
        decide (¬(|projection| < lookahead_distance)))

/-- `CombinedController._decide_lane_change` (controller.py lines 192-250).
The `track` argument is accepted but unused, as in the source. -/
def decide_lane_change (ops : Ops) (car : Car) (_track : Track) (all_cars : List Car) :
    Option ℚ :=
  if car.lane_change_timer > 0 then none
  else
    -- Find the closest car ahead (within 30 m forward projection) in this lane
    let folded := all_cars.foldl
      (fun (acc : Option (Car × ℚ × ℚ)) other =>
        if other.car_id = car.car_id then acc
        else if |other.lane - car.lane| > 1/2 then acc
        else
          let dx := other.x - car.x
          let dy := other.y - car.y
          let projection := dx * ops.cos car.yaw + dy * ops.sin car.yaw
          if 0 < projection ∧ projection < 30 then
            let distance := ops.sqrt (dx ^ 2 + dy ^ 2)
            match acc with
            | none => some (other, distance, other.velocity)
            | some (b, dbest, vbest) =>
              if distance < dbest then some (other, distance, other.velocity)
              else some (b, dbest, vbest)
          else acc)
      none
    match folded with
    | some (_, _, leading_speed) =>
      if leading_speed < car.velocity * (9/10) then
        let candidates :=
          (if car.lane < 4 then [car.lane + 1] else []) ++
          (if car.lane < 3 then [car.lane + 2] else []) ++
          (if car.lane > 0 then [car.lane - 1] else []) ++
          (if car.lane > 1 then [car.lane - 2] else [])
        candidates.find? (fun cand => check_lane_clear ops car cand all_cars 20)
      else none
    | none => none

/-- `CombinedController.compute_control` (controller.py lines 252-331):
returns the car with its lane fields mutated, together with the
`(acceleration, steering_angle)` command. -/
def compute_control (ops : Ops) (cc : CombinedController) (car : Car) (track : Track)
    (all_cars : List Car) (sensing_radius : ℚ) : Car × ℚ × ℚ :=
  -- Lane-change decision
  let car1 :=
    match decide_lane_change ops car track all_cars with
    | some tl => { car with target_lane := tl, lane_change_timer := 2 }
    | none => car
  -- Smooth transition of the continuous lane coordinate toward the target
  let lane_diff : ℚ := car1.target_lane - car1.lane
  let car2 :=
    if |lane_diff| > 1/10 then
      if lane_diff > 0 then { car1 with lane := min (car1.lane + 1/10) car1.target_lane }
      else { car1 with lane := max (car1.lane - 1/10) car1.target_lane }
    else { car1 with lane := car1.target_lane }
  let car3 := { car2 with lane := qclip car2.lane 0 4, target_lane := qclip car2.target_lane 0 4 }
  -- Sense neighbors and pick the first (closest) one ahead in the same lane
  let neighbors := sense_neighbors ops car3 all_cars sensing_radius
  let leading := neighbors.find? (fun nb =>
    let other := nb.1
    if |other.lane - car3.lane| > 1/2 then false
    else
      let dx := other.x - car3.x
      let dy := other.y - car3.y
      decide (dx * ops.cos car3.yaw + dy * ops.sin car3.yaw > 0))
  let leadInfo : Option Car × Option ℚ × ℚ :=
    match leading with
    | some (o, d, rv) => (some o, some d, rv)
    | none => (none, none, 0)
  let acceleration := compute_acceleration ops cc.idm car3 leadInfo.1 leadInfo.2.1 leadInfo.2.2
  -- Target point on the rounded current lane, then Pure Pursuit steering
  let target_lane_int : ℤ := np_round car3.lane
  let tp := track.get_target_point car3.s_position car3.lookahead_distance (some target_lane_int)
  let steering_angle := compute_steering_angle ops cc.pure_pursuit car3 tp.1 tp.2
  (car3, acceleration, steering_angle)

/-- One collision record (collision.py, `check_collisions`). -/
structure CollisionEvent where
  timestamp : ℚ
  car_id1 : ℕ
  car_id2 : ℕ
  x : ℚ
  y : ℚ
  lap : ℕ
  severity : ℚ
deriving DecidableEq

/-- `tuple(sorted([id1, id2]))`: the order-normalized id pair. -/
def pair_key (a b : ℕ) : ℕ × ℕ := if a ≤ b then (a, b) else (b, a)

/-- Euclidean distance between two cars' positions. -/
def car_distance (ops : Ops) (c1 c2 : Car) : ℚ :=
  ops.sqrt ((c1.x - c2.x) ^ 2 + (c1.y - c2.y) ^ 2)

/-- Magnitude of the relative velocity vector of the pair
(collision.py lines 60-72). -/
def severity_of (ops : Ops) (c1 c2 : Car) : ℚ :=
  let v1x := c1.velocity * ops.cos c1.yaw
  let v1y := c1.velocity * ops.sin c1.yaw
  let v2x := c2.velocity * ops.cos c2.yaw
  let v2y := c2.velocity * ops.sin c2.yaw
  ops.sqrt ((v2x - v1x) ^ 2 + (v2y - v1y) ^ 2)

/-- The collision record built for a detected pair (collision.py lines 74-83). -/
def mk_collision_event (ops : Ops) (t : ℚ) (c1 c2 : Car) : CollisionEvent :=
  { timestamp := t, car_id1 := c1.car_id, car_id2 := c2.car_id,
    x := (c1.x + c2.x) / 2, y := (c1.y + c2.y) / 2,
    lap := min c1.lap_count c2.lap_count, severity := severity_of ops c1 c2 }

/-- Collision bookkeeping applied to one involved car
(collision.py lines 88-96). -/
def apply_collision_hit (severity : ℚ) (c : Car) : Car :=
  { c with collision_count := c.collision_count + 1,
           total_collision_severity := c.total_collision_severity + severity,
           collision_flag := true }

/-- State threaded through `check_collisions`: current roster, the set of
already-reported id pairs, and the new collision events. -/
abbrev CCState := List Car × List (ℕ × ℕ) × List CollisionEvent

/-- Body of the inner loop of `CollisionDetector.check_collisions`
(collision.py lines 41-96) for the index pair `(i, j)`, `i < j`. -/
def cc_pair_step (ops : Ops) (r t : ℚ) (i j : ℕ) (st : CCState) : CCState :=
  let ros := st.1
  let seen := st.2.1
  let evs := st.2.2
  let car1 := ros.getD i default
  let car2 := ros.getD j default
  if car2.eliminated then st
  else
    let pair := pair_key car1.car_id car2.car_id
    if pair ∈ seen then st
    else if car_distance ops car1 car2 < r then
      let ev := mk_collision_event ops t car1 car2
      let ros' := (ros.set i (apply_collision_hit ev.severity car1)).set j
        (apply_collision_hit ev.severity car2)
      (ros', pair :: seen, evs ++ [ev])
    else st

/-- Inner loop of `check_collisions` over the indices `js` (all `j > i`). -/
def cc_inner_go (ops : Ops) (r t : ℚ) (i : ℕ) : List ℕ → CCState → CCState
  | [], st => st
  | j :: js, st => cc_inner_go ops r t i js (cc_pair_step ops r t i j st)

/-- Body of the outer loop of `check_collisions` for index `i`: skip
eliminated cars, otherwise run the inner loop over `j ∈ [i+1, n)`. -/
def cc_outer_step (ops : Ops) (r t : ℚ) (n i : ℕ) (st : CCState) : CCState :=
  let car1 := st.1.getD i default
  if car1.eliminated then st
  else cc_inner_go ops r t i (List.range' (i + 1) (n - (i + 1))) st

/-- Outer loop of `check_collisions` over the indices `is`. -/
def cc_outer_go (ops : Ops) (r t : ℚ) (n : ℕ) : List ℕ → CCState → CCState
  | [], st => st
  | i :: is2, st => cc_outer_go ops r t n is2 (cc_outer_step ops r t n i st)

/-- `CollisionDetector.check_collisions` (collision.py lines 22-98): returns
the updated roster and the list of new collision events of this call. -/
def check_collisions (ops : Ops) (r : ℚ) (cars : List Car) (t : ℚ) :
    List Car × List CollisionEvent :=
  let n := cars.length
  let res := cc_outer_go ops r t n (List.range n) (cars, [], [])
  (res.1, res.2.2)

/-- `CollisionDetector.compute_near_misses` (collision.py lines 108-149):
count of approaching pairs with time-to-collision below the threshold. -/
def compute_near_misses (ops : Ops) (cars : List Car) (ttc_threshold : ℚ) : ℕ :=
  let n := cars.length
  (List.range n).foldl (fun acc i =>
    (List.range' (i + 1) (n - (i + 1))).foldl (fun acc2 j =>
      let car1 := cars.getD i default
      let car2 := cars.getD j default
      let dx := car2.x - car1.x
      let dy := car2.y - car1.y
      let distance := ops.sqrt (dx ^ 2 + dy ^ 2)
      if distance < 10 then
        let v1x := car1.velocity * ops.cos car1.yaw
        let v1y := car1.velocity * ops.sin car1.yaw
        let v2x := car2.velocity * ops.cos car2.yaw
        let v2y := car2.velocity * ops.sin car2.yaw
        let rel_vx := v2x - v1x
        let rel_vy := v2y - v1y
        if distance > 1/10 then
          let rel_v := (dx * rel_vx + dy * rel_vy) / distance
          if rel_v < 0 then
            let ttc := distance / |rel_v|
            if 0 < ttc ∧ ttc < ttc_threshold then acc2 + 1 else acc2
          else acc2
        else acc2
      else acc2) acc) 0

/-- The elimination applied to one car after a collision roll
(simulation.py lines 210-235): eliminate when `roll < chance`. -/
def eliminate_car (chance roll : ℕ) (t : ℚ) (c : Car) : Car :=
  if roll < chance then
    { c with eliminated := true, elimination_time := some t,
             elimination_reason := some (.collisionRoll roll chance), velocity := 0 }
  else c

/-- `RacingSimulation._check_eliminations` (simulation.py lines 193-235):
for each new collision event, roll once for each involved, still-active car.
The pseudo-random rolls are consumed from the `rolls` list (default 10,
which never eliminates, when the list is exhausted). -/
def check_eliminations (chance : ℕ) (t : ℚ) :
    List CollisionEvent → List ℕ → List Car → List Car × List ℕ
  | [], rolls, cars => (cars, rolls)
  | ev :: evs, rolls, cars =>
    let step := fun (idv : ℕ) (rolls : List ℕ) (cars : List Car) =>
      match cars.findIdx? (fun c => c.car_id = idv) with
      | some i =>
        let c := cars.getD i default
        if c.eliminated then (cars, rolls)
        else (cars.set i (eliminate_car chance (rolls.headD 10) t c), rolls.tail)
      | none => (cars, rolls)
    let r1 := step ev.car_id1 rolls cars
    let r2 := step ev.car_id2 r1.2 r1.1
    check_eliminations chance t evs r2.2 r2.1

/-- Per-step configuration of the fixed-timestep scheduler
(the `simulation` section of the YAML configuration). -/
structure SimConfig where
  dt : ℚ
  collision_radius : ℚ
  ttc_threshold : ℚ
  elimination_enabled : Bool
  elimination_chance : ℕ
  target_laps : ℕ
  time_limit : ℚ
deriving DecidableEq

/-- The lane-change-timer decrement at the top of the per-car loop body. -/
def dec_timer (dt : ℚ) (car : Car) : Car :=
  if car.lane_change_timer > 0 then
    { car with lane_change_timer := car.lane_change_timer - dt }
  else car

/-- The list of non-eliminated cars. -/
def active_cars (ros : List Car) : List Car := ros.filter (fun c => !c.eliminated)

/-- The body of the per-car update loop of `RacingSimulation.run`
(simulation.py lines 291-311) for roster position `idx`: decrement the
lane-change timer, compute the control command against the *current* list of
active cars, integrate, and reproject.  Returns the new roster and the
command issued (none for eliminated cars). -/
def sim_update_car (ops : Ops) (track : Track) (dt : ℚ) (ros : List Car) (idx : ℕ) :
    List Car × Option (ℚ × ℚ) :=
  let car := ros.getD idx default
  if car.eliminated then (ros, none)
  else
    let car1 := dec_timer dt car
    let ros1 := ros.set idx car1
    let ctl := compute_control ops car1.controller car1 track (active_cars ros1) 50
    let car3 := update_car_dynamics ops ctl.1 ctl.2.1 ctl.2.2 dt
    let car4 := update_state ops track dt car3
    (ros1.set idx car4, some ctl.2)

/-- Iteration of `sim_update_car` over the index list `l`. -/
def run_cycle_go (ops : Ops) (track : Track) (dt : ℚ) :
    List ℕ → List Car × List (ℚ × ℚ) → List Car × List (ℚ × ℚ)
  | [], st => st
  | i :: rest, st =>
    let r := sim_update_car ops track dt st.1 i
    run_cycle_go ops track dt rest (r.1, st.2 ++ r.2.toList)

/-- The per-car phase of one cycle of `RacingSimulation.run`: iterate
`sim_update_car` over the roster in order, collecting the issued commands. -/
def run_cycle (ops : Ops) (track : Track) (dt : ℚ) (cars : List Car) :
    List Car × List (ℚ × ℚ) :=
  run_cycle_go ops track dt (List.range cars.length) (cars, [])

/-- The command the per-vehicle loop issues for roster position `idx` when
it is reached with roster state `ros` (the control part of
`sim_update_car`).  The frozen-snapshot reference loop of the spec ("take a
snapshot of active vehicles' state; for each active vehicle compute
(accel, steer) against that snapshot") issues `cycle_command` against the
fixed start-of-cycle roster; the vehicle's own pre-control mutation (the
timer decrement) is the same as in the code. -/
def cycle_command (ops : Ops) (track : Track) (dt : ℚ) (ros : List Car) (idx : ℕ) : ℚ × ℚ :=
  let car1 := dec_timer dt (ros.getD idx default)
  (compute_control ops car1.controller car1 track (active_cars (ros.set idx car1)) 50).2

/-- Modelled from the spec (reference loop for C2): iterate over the index
list, computing every active vehicle's command against the fixed
start-of-cycle roster `cars`. -/
def snapshot_go (ops : Ops) (track : Track) (dt : ℚ) (cars : List Car) :
    List ℕ → List (ℚ × ℚ) → List (ℚ × ℚ)
  | [], cmds => cmds
  | i :: rest, cmds =>
    if (cars.getD i default).eliminated then snapshot_go ops track dt cars rest cmds
    else snapshot_go ops track dt cars rest (cmds ++ [cycle_command ops track dt cars i])

/-- The reference command list of C2's frozen-snapshot loop. -/
def snapshot_commands (ops : Ops) (track : Track) (dt : ℚ) (cars : List Car) :
    List (ℚ × ℚ) :=
  snapshot_go ops track dt cars (List.range cars.length) []

/-- One full cycle of `RacingSimulation.run` (simulation.py lines 291-325):
per-car updates, one collision pass, the elimination pass when enabled, and
one near-miss pass over the active cars.  Returns the new roster, the new
collision events, the unconsumed rolls and the near-miss count. -/
def fixed_cycle (ops : Ops) (track : Track) (cfg : SimConfig) (rolls : List ℕ) (t : ℚ)
    (cars : List Car) : List Car × List CollisionEvent × List ℕ × ℕ :=
  let r1 := run_cycle ops track cfg.dt cars
  let r2 := check_collisions ops cfg.collision_radius r1.1 t
  let r3 :=
    if cfg.elimination_enabled then
      check_eliminations cfg.elimination_chance t r2.2 rolls r2.1
    else (r2.1, rolls)
  let active := r3.1.filter (fun c => !c.eliminated)
  let nm := compute_near_misses ops active cfg.ttc_threshold
  (r3.1, r2.2, r3.2, nm)

/-- The loop of `RacingSimulation.run` (simulation.py lines 271-337) without
the I/O: run up to `n` cycles, stopping early when no active car remains or
all active cars have completed the target laps. -/
def fixed_run (ops : Ops) (track : Track) (cfg : SimConfig) :
    ℕ → List ℕ → ℕ → List Car → List Car
  | 0, _, _, cars => cars
  | n + 1, rolls, step, cars =>
    let active := cars.filter (fun c => !c.eliminated)
    if active.isEmpty then cars
    else if active.all (fun c => cfg.target_laps ≤ c.lap_count) then cars
    else
      let t := (step : ℚ) * cfg.dt
      let r := fixed_cycle ops track cfg rolls t cars
      fixed_run ops track cfg n r.2.2.1 (step + 1) r.1

/-- The base transition-probability row of `MarkovChainSimulation`
(markov_chain.py lines 35-40), in dict insertion order. -/
def base_transition_row : Strategy → List (Strategy × ℚ)
  | .aggressive => [(.aggressive, 7/10), (.balanced, 2/10), (.cautious, 1/20), (.eliminated, 1/20)]
  | .balanced => [(.aggressive, 1/10), (.balanced, 8/10), (.cautious, 2/25), (.eliminated, 1/50)]
  | .cautious => [(.aggressive, 1/20), (.balanced, 3/20), (.cautious, 3/4), (.eliminated, 1/20)]
  | .eliminated => [(.aggressive, 0), (.balanced, 0), (.cautious, 0), (.eliminated, 1)]

/-- Update the probability assigned to one state in a row. -/
def set_prob (l : List (Strategy × ℚ)) (s : Strategy) (f : ℚ → ℚ) : List (Strategy × ℚ) :=
  l.map (fun kv => if kv.1 = s then (kv.1, f kv.2) else kv)

/-- `MarkovChainSimulation._update_transition_probabilities`
(markov_chain.py lines 42-82); returns `none` for the eliminated state, as
the source returns `None` there. -/
def update_transition_probabilities (car : Car) : Option (List (Strategy × ℚ)) :=
  if car.strategy_type = .eliminated then none
  else
    let collision_rate : ℚ := (car.collision_count : ℚ) / max (car.lap_count : ℚ) 1
    let avg_speed : ℚ :=
      if car.trajectory.isEmpty then 0
      else (car.trajectory.map (fun p => p.velocity)).sum / (car.trajectory.length : ℚ)
    let probs := base_transition_row car.strategy_type
    let probs1 :=
      if collision_rate > 1/2 then
        set_prob (set_prob (set_prob probs .eliminated (fun v => min (3/10) (v * 2)))
          .cautious (fun v => min (4/10) (v * 2))) .aggressive (fun v => max 0 (v * (1/2)))
      else if collision_rate < 1/10 ∧ avg_speed > car.desired_speed * (9/10) then
        set_prob (set_prob probs .aggressive (fun v => min (3/10) (v * (3/2))))
          .eliminated (fun v => max 0 (v * (1/2)))
      else probs
    let total := (probs1.map (fun kv => kv.2)).sum
    some (if total > 0 then probs1.map (fun kv => (kv.1, kv.2 / total)) else probs1)

/-- `MarkovChainSimulation._transition_state` (markov_chain.py lines 84-128).
`np.random.choice(states, p=probs)` is modelled by the sampling function
`pick`, which receives the normalized probability row. -/
def transition_state (ccfg : ControllerConfig) (pick : List (Strategy × ℚ) → Strategy)
    (car : Car) : Car :=
  if car.eliminated then { car with strategy_type := .eliminated }
  else
    match update_transition_probabilities car with
    | none => car
    | some probs =>
      let next := pick probs
      if next ≠ car.strategy_type ∧ next ≠ .eliminated then
        let car1 := { car with strategy_type := next }
        let car2 :=
          match next with
          | .aggressive => { car1 with speed_multiplier := 12/10, min_gap := car1.min_gap * (8/10) }
          | .balanced => { car1 with speed_multiplier := 1 }
          | .cautious => { car1 with speed_multiplier := 9/10, min_gap := car1.min_gap * (12/10) }
          | .eliminated => car1
        { car2 with controller := mk_combined_controller ccfg next }
      else if next = .eliminated then
        -- Sets the flag immediately; elimination_time is left unset
        -- ("Will be set by collision handler" in the source)
        { car with eliminated := true, elimination_time := none,
                   elimination_reason := some .markovTransition }
      else car

/-- The body of the per-car loop of `run_with_markov`
(markov_chain.py lines 186-207) for roster position `idx`: decrement the
timer, apply the Markov transition every 20th step, then (if still active)
control, integrate, and reproject. -/
def markov_update_car (ops : Ops) (track : Track) (ccfg : ControllerConfig)
    (pick : List (Strategy × ℚ) → Strategy) (dt : ℚ) (step : ℕ) (ros : List Car)
    (idx : ℕ) : List Car :=
  let car := ros.getD idx default
  if car.eliminated then ros
  else
    let car1 := dec_timer dt car
    let car2 := if step % 20 = 0 then transition_state ccfg pick car1 else car1
    if car2.eliminated then ros.set idx car2
    else
      let ros1 := ros.set idx car2
      let ctl := compute_control ops car2.controller car2 track (active_cars ros1) 50
      let car3 := update_car_dynamics ops ctl.1 ctl.2.1 ctl.2.2 dt
      let car4 := update_state ops track dt car3
      ros1.set idx car4

/-- Iteration of `markov_update_car` over the index list. -/
def markov_loop_go (ops : Ops) (track : Track) (ccfg : ControllerConfig)
    (pick : List (Strategy × ℚ) → Strategy) (dt : ℚ) (step : ℕ) :
    List ℕ → List Car → List Car
  | [], ros => ros
  | i :: rest, ros =>
    markov_loop_go ops track ccfg pick dt step rest
      (markov_update_car ops track ccfg pick dt step ros i)

/-- One full cycle of `run_with_markov` (markov_chain.py lines 186-221):
per-car updates with periodic Markov transitions, one collision pass, and
the elimination pass when enabled. -/
def markov_cycle (ops : Ops) (track : Track) (ccfg : ControllerConfig) (cfg : SimConfig)
    (pick : List (Strategy × ℚ) → Strategy) (rolls : List ℕ) (step : ℕ)
    (cars : List Car) : List Car × List CollisionEvent × List ℕ :=
  let t := (step : ℚ) * cfg.dt
  let cars1 := markov_loop_go ops track ccfg pick cfg.dt step (List.range cars.length) cars
  let r2 := check_collisions ops cfg.collision_radius cars1 t
  let r3 :=
    if cfg.elimination_enabled then
      check_eliminations cfg.elimination_chance t r2.2 rolls r2.1
    else (r2.1, rolls)
  (r3.1, r2.2, r3.2)

/-- Event types of the discrete-event scheduler (discrete_event.py): the two
pre-scheduled periodic kinds, and the predictive `collision` kind that
`_check_collision_event` would schedule. -/
inductive EType where
  | update
  | collisionCheck
  | collision
deriving DecidableEq

/-- `Event` (discrete_event.py lines 14-42), reduced to its queue-relevant
data: time and type (the handler is determined by the type). -/
structure DEvent where
  time : ℚ
  etype : EType
deriving DecidableEq

/-- The predictive-scheduling condition of
`DiscreteEventSimulation._check_collision_event` (discrete_event.py lines
147-176): not already overlapping, relative speed above 0.1, and projected
time-to-contact below 5 s. -/
def check_collision_event_pred (ops : Ops) (radius : ℚ) (c1 c2 : Car) : Bool :=
  let dx := c2.x - c1.x
  let dy := c2.y - c1.y
  let distance := ops.sqrt (dx ^ 2 + dy ^ 2)
  if distance < radius then false
  else
    let v1x := c1.velocity * ops.cos c1.yaw
    let v1y := c1.velocity * ops.sin c1.yaw
    let v2x := c2.velocity * ops.cos c2.yaw
    let v2y := c2.velocity * ops.sin c2.yaw
    let rel_v := ops.sqrt ((v2x - v1x) ^ 2 + (v2y - v1y) ^ 2)
    decide (rel_v > 1/10) && decide (distance / rel_v < 5)

/-- The event schedule built up front by `DiscreteEventSimulation.run`
(discrete_event.py lines 265-281): one `update` event per `dt` and one
`collision_check` event per 0.1 s, over the whole horizon. -/
def initial_events (time_limit dt : ℚ) : List DEvent :=
  ((List.range (⌊time_limit / dt⌋).toNat).map
    (fun i => DEvent.mk ((i : ℚ) * dt) .update)) ++
  ((List.range (⌊time_limit / (1/10)⌋).toNat).map
    (fun i => DEvent.mk ((i : ℚ) * (1/10)) .collisionCheck))

/-- Pop the earliest event from the queue (`heapq.heappop`; ties resolved to
the first-inserted minimum). -/
def pop_min (q : List DEvent) : Option (DEvent × List DEvent) :=
  match q with
  | [] => none
  | _ =>
    let i := np_argmin (q.map (fun e => e.time))
    some (q.getD i ⟨0, .update⟩, q.take i ++ q.drop (i + 1))

/-- `DiscreteEventSimulation._update_all_cars` (discrete_event.py lines
329-345).  The Python handler builds the active list once before the loop,
but the list holds references, so each controller reads the live state of
the earlier-updated cars — exactly the `run_cycle` per-car phase. -/
def update_all_cars (ops : Ops) (track : Track) (dt : ℚ) (cars : List Car) : List Car :=
  (run_cycle ops track dt cars).1

/-- State of the discrete-event run: queue, clock, roster and the collision
log. -/
structure DESState where
  queue : List DEvent
  time : ℚ
  cars : List Car
  collisions : List CollisionEvent
deriving DecidableEq

/-- Dispatch one popped event (discrete_event.py lines 309-310): handlers
update the roster and the collision log; none of them schedules any further
event (returned list of newly scheduled events, always empty here because
`_check_collision_event` is never invoked by `run` or by any handler). -/
def des_handle (ops : Ops) (track : Track) (cfg : SimConfig) (ev : DEvent)
    (cars : List Car) (cols : List CollisionEvent) :
    List Car × List CollisionEvent × List DEvent :=
  match ev.etype with
  | .update => (update_all_cars ops track cfg.dt cars, cols, [])
  | .collisionCheck =>
    let r := check_collisions ops cfg.collision_radius cars ev.time
    (r.1, cols ++ r.2, [])
  | .collision => (cars, cols, [])

/-- The event loop of `DiscreteEventSimulation.run` (discrete_event.py lines
291-321): pop the earliest event, advance the clock, stop when no active car
remains or all active cars finished, otherwise dispatch the handler and push
whatever it schedules.  Returns the final state and the list of processed
events. -/
def des_run (ops : Ops) (track : Track) (cfg : SimConfig) :
    ℕ → DESState → DESState × List DEvent
  | 0, st => (st, [])
  | fuel + 1, st =>
    if st.time < cfg.time_limit then
      match pop_min st.queue with
      | none => (st, [])
      | some (ev, q') =>
        let st1 := { st with queue := q', time := ev.time }
        let active := st1.cars.filter (fun c => !c.eliminated)
        if active.isEmpty then (st1, [ev])
        else if active.all (fun c => cfg.target_laps ≤ c.lap_count) then (st1, [ev])
        else
          let h := des_handle ops track cfg ev st1.cars st1.collisions
          let st2 := { st1 with cars := h.1, collisions := h.2.1,
                                queue := st1.queue ++ h.2.2 }
          let r := des_run ops track cfg fuel st2
          (r.1, ev :: r.2)
    else (st, [])

/-! Concrete instances used in witnesses and counterexamples.  The numeric
backend `opsD` agrees with the real transcendental functions at every point
at which the concrete scenarios evaluate it: all headings stay at 0
(`cos 0 = 1`, `sin 0 = 0`, `tan 0 = 0`, `atan2 0 x = 0` for `x > 0`), and
`ratSqrt` is the exact square root on perfect squares of rationals. -/

/-- Newton iteration for the integer square root (structural fuel so that
the kernel can evaluate it). -/
def isqrt_aux : ℕ → ℕ → ℕ → ℕ
  | 0, _, x => x
  | fuel + 1, n, x =>
    let y := (x + n / x) / 2
    if y < x then isqrt_aux fuel n y else x

/-- Integer square root (floor). -/
def isqrt (n : ℕ) : ℕ := if n ≤ 1 then n else isqrt_aux n n (n / 2 + 1)

/-- Exact square root for rationals whose numerator and denominator are
perfect squares. -/
def ratSqrt (q : ℚ) : ℚ := (isqrt q.num.toNat : ℚ) / (isqrt q.den : ℚ)

/-- Concrete numeric backend for the scenarios below. -/
def opsD : Ops :=
  { sqrt := ratSqrt, cos := fun _ => 1, sin := fun _ => 0, tan := fun _ => 0,
    atan2 := fun _ _ => 0, pi := 157/50 }

/-- Controller with `a_max = 1`, `b_max = 4` (so `sqrt(a_max*b_max) = 2`). -/
def testController : CombinedController :=
  { idm := { a_max := 1, b_max := 4, min_gap := 2, reaction_time := 1,
             desired_speed := 10, delta := 4 },
    pure_pursuit := { lookahead_distance := 8, wheelbase := 2 } }

/-- A car on the x-axis with heading 0, in lane 2, desired speed 10. -/
def mkTestCar (idn : ℕ) (x v : ℚ) : Car :=
  { car_id := idn, strategy_type := .balanced, x := x, y := 0, yaw := 0, velocity := v,
    acceleration := 0, lane := 2, target_lane := 2, lap_count := 0, s_position := 0,
    lane_change_timer := 10, desired_speed := 10, max_accel := 1, max_brake := 4,
    reaction_time := 1, min_gap := 2, wheelbase := 2, lookahead_distance := 8,
    speed_multiplier := 1, trajectory := [], collision_flag := false, collision_count := 0,
    total_collision_severity := 0, eliminated := false, elimination_time := none,
    elimination_reason := none, lap_times := [], last_lap_start_s := 0,
    last_lap_start_time := 0, controller := testController }

/-- A straight 10-sample track along the x-axis (samples 10 m apart). -/
def lineTrack : Track :=
  { centerline_x := [0, 10, 20, 30, 40, 50, 60, 70, 80, 90],
    centerline_y := [0, 0, 0, 0, 0, 0, 0, 0, 0, 0],
    arc_lengths := [0, 10, 20, 30, 40, 50, 60, 70, 80, 90],
    total_length := 90,
    lanes := List.replicate 5
      ⟨[0, 10, 20, 30, 40, 50, 60, 70, 80, 90], [0, 0, 0, 0, 0, 0, 0, 0, 0, 0]⟩,
    num_lanes := 5 }

/-- A `simulation` configuration with elimination disabled. -/
def cfgElimOff : SimConfig :=
  { dt := 1, collision_radius := 6, ttc_threshold := 2, elimination_enabled := false,
    elimination_chance := 6, target_laps := 1, time_limit := 10 }

/-- A `simulation` configuration with elimination enabled. -/
def cfgElimOn : SimConfig :=
  { dt := 1, collision_radius := 6, ttc_threshold := 2, elimination_enabled := true,
    elimination_chance := 6, target_laps := 1, time_limit := 10 }

/-- A `controller` configuration matching `testController`. -/
def testCCfg : ControllerConfig :=
  { a_max := 1, b_max := 4, min_gap := 2, reaction_time := 1, wheelbase := 2,
    lookahead_distance := 8, desired_speed := fun _ => 10 }

/-- The `simulation` configuration of the discrete-event counterexample:
one update tick and one collision check before the time limit. -/
def cfgDES : SimConfig :=
  { dt := 1/10, collision_radius := 2, ttc_threshold := 2, elimination_enabled := true,
    elimination_chance := 6, target_laps := 1, time_limit := 1/10 }

/-! ## Supporting lemmas -/

theorem qclip_nonneg {x hi : ℚ} (hhi : 0 ≤ hi) : 0 ≤ qclip x 0 hi :=
  le_min (le_max_right x 0) hhi

theorem qclip_le {x lo hi : ℚ} : qclip x lo hi ≤ hi :=
  min_le_right _ _

theorem update_car_dynamics_velocity (ops : Ops) (car : Car) (a s dt : ℚ) :
    (update_car_dynamics ops car a s dt).velocity =
      qclip (car.velocity + a * dt) 0 car.get_max_speed := rfl

theorem update_car_dynamics_max_speed (ops : Ops) (car : Car) (a s dt : ℚ) :
    (update_car_dynamics ops car a s dt).get_max_speed = car.get_max_speed := rfl

theorem foldl_dynamics_velocity_mem (ops : Ops) (dt M : ℚ) (hM : 0 ≤ M) :
    ∀ (cmds : List (ℚ × ℚ)) (c : Car), c.get_max_speed = M →
      0 ≤ c.velocity → c.velocity ≤ M →
      let cf := cmds.foldl (fun c p => update_car_dynamics ops c p.1 p.2 dt) c
      (0 ≤ cf.velocity ∧ cf.velocity ≤ M) ∧ cf.get_max_speed = M := by
  intro cmds
  induction cmds with
  | nil => intro c hspeed h0 h1; exact ⟨⟨h0, h1⟩, hspeed⟩
  | cons p ps ih =>
    intro c hspeed h0 h1
    simp only [List.foldl_cons]
    apply ih
    · rw [update_car_dynamics_max_speed]; exact hspeed
    · rw [update_car_dynamics_velocity, hspeed]; exact qclip_nonneg hM
    · rw [update_car_dynamics_velocity, hspeed]; exact qclip_le

/-! ## C1 -/

/-- C1: for every car, commanded acceleration, steering angle and `dt > 0`,
after `update_car_dynamics` the velocity lies in `[0, get_max_speed]`
(`get_max_speed = desired_speed * speed_multiplier`), and it stays in that
interval at every subsequent tick under any finite sequence of commanded
`(acceleration, steering)` inputs. -/
theorem velocity_within_max_speed (ops : Ops) (car : Car) (accel steer dt : ℚ)
    (cmds : List (ℚ × ℚ)) (_hdt : 0 < dt) (hM : 0 ≤ car.get_max_speed) :
    (0 ≤ (update_car_dynamics ops car accel steer dt).velocity ∧
      (update_car_dynamics ops car accel steer dt).velocity ≤ car.get_max_speed) ∧
    (0 ≤ (cmds.foldl (fun c p => update_car_dynamics ops c p.1 p.2 dt)
            (update_car_dynamics ops car accel steer dt)).velocity ∧
      (cmds.foldl (fun c p => update_car_dynamics ops c p.1 p.2 dt)
            (update_car_dynamics ops car accel steer dt)).velocity ≤ car.get_max_speed) := by
  have h1 : 0 ≤ (update_car_dynamics ops car accel steer dt).velocity := by
    rw [update_car_dynamics_velocity]; exact qclip_nonneg hM
  have h2 : (update_car_dynamics ops car accel steer dt).velocity ≤ car.get_max_speed := by
    rw [update_car_dynamics_velocity]; exact qclip_le
  refine ⟨⟨h1, h2⟩, ?_⟩
  exact (foldl_dynamics_velocity_mem ops dt car.get_max_speed hM cmds
    (update_car_dynamics ops car accel steer dt)
    (update_car_dynamics_max_speed ops car accel steer dt) h1 h2).1

/-- Witness for C1 at a concrete input: braking command `-9` followed by the
commands `(3, 0)` and `(100, 0)` with `dt = 1` on a car with maximum speed
10 keeps the velocity within `[0, 10]`. -/
theorem velocity_within_max_speed_witness :
    0 < (1 : ℚ) ∧ 0 ≤ (mkTestCar 0 0 5).get_max_speed ∧
    ((0 ≤ (update_car_dynamics opsD (mkTestCar 0 0 5) (-9) 0 1).velocity ∧
      (update_car_dynamics opsD (mkTestCar 0 0 5) (-9) 0 1).velocity ≤
        (mkTestCar 0 0 5).get_max_speed) ∧
     (0 ≤ ([((3 : ℚ), (0 : ℚ)), (100, 0)].foldl
            (fun c p => update_car_dynamics opsD c p.1 p.2 1)
            (update_car_dynamics opsD (mkTestCar 0 0 5) (-9) 0 1)).velocity ∧
      ([((3 : ℚ), (0 : ℚ)), (100, 0)].foldl
            (fun c p => update_car_dynamics opsD c p.1 p.2 1)
            (update_car_dynamics opsD (mkTestCar 0 0 5) (-9) 0 1)).velocity ≤
        (mkTestCar 0 0 5).get_max_speed)) :=
  ⟨by norm_num, by decide,
    velocity_within_max_speed opsD (mkTestCar 0 0 5) (-9) 0 1 [(3, 0), (100, 0)]
      (by norm_num) (by decide)⟩

/-! ## C5 -/

/-- Modelled from the spec (C5): the free-road IDM formula
`clamp(aMax * (1 - (v/v0)^4), -bMax, aMax)` with
`v0 = desired_speed * speed_multiplier`. -/
def spec_idm_free (idm : IDMController) (car : Car) : ℚ :=
  let v := car.velocity
  let v0 := car.desired_speed * car.speed_multiplier
  qclip (idm.a_max * (1 - (v / v0) ^ (4 : ℕ))) (-idm.b_max) idm.a_max

/-- Modelled from the spec (C5): the car-following IDM formula
`clamp(aMax * (1 - (v/v0)^4 - (s* / max(d, 0.1))^2), -bMax, aMax)` with
`s* = gap0 + v*T + v*(-dv) / (2*sqrt(aMax*bMax))`. -/
def spec_idm_lead (ops : Ops) (idm : IDMController) (car : Car) (d dv : ℚ) : ℚ :=
  let v := car.velocity
  let v0 := car.desired_speed * car.speed_multiplier
  let s_star := idm.min_gap + v * idm.reaction_time +
    v * (-dv) / (2 * ops.sqrt (idm.a_max * idm.b_max))
  qclip (idm.a_max * (1 - (v / v0) ^ (4 : ℕ) - (s_star / max d (1/10)) ^ (2 : ℕ)))
    (-idm.b_max) idm.a_max

/-- C5: `compute_acceleration` returns exactly the claimed clamped IDM
formulas — the free-road form when no leader is given, and the interaction
form when a leader at distance `d` with relative speed `dv` is given
(`delta = 4` is the value installed by the controller's constructor). -/
theorem compute_acceleration_idm_formula (ops : Ops) (idm : IDMController) (car : Car)
    (lc : Car) (d dv : ℚ) (hdelta : idm.delta = 4) :
    compute_acceleration ops idm car none none dv = spec_idm_free idm car ∧
    compute_acceleration ops idm car (some lc) (some d) dv = spec_idm_lead ops idm car d dv := by
  constructor
  · simp only [compute_acceleration, spec_idm_free, hdelta]
  · simp only [compute_acceleration, spec_idm_lead, hdelta]

/-- Witness for C5 at a concrete input: the test controller (whose exponent
is 4) on a car at speed 5 with a leader 10 m ahead. -/
theorem compute_acceleration_idm_formula_witness :
    testController.idm.delta = 4 ∧
    (compute_acceleration opsD testController.idm (mkTestCar 1 0 5) none none 0 =
        spec_idm_free testController.idm (mkTestCar 1 0 5) ∧
      compute_acceleration opsD testController.idm (mkTestCar 1 0 5)
          (some (mkTestCar 0 10 5)) (some 10) (15/16) =
        spec_idm_lead opsD testController.idm (mkTestCar 1 0 5) 10 (15/16)) :=
  ⟨rfl, compute_acceleration_idm_formula opsD testController.idm (mkTestCar 1 0 5)
    (mkTestCar 0 10 5) 10 (15/16) rfl⟩

/-! ## C8 -/

theorem qmod_add_right (a b : ℚ) (hb : b ≠ 0) : qmod (a + b) b = qmod a b := by
  unfold qmod
  have h : (a + b) / b = a / b + 1 := by field_simp
  rw [h, Int.floor_add_one]
  push_cast
  ring

/-- C8: the track position query is periodic modulo the total track length:
for every arc length `s`, lookahead distance and lane, querying at
`s + total_length` returns the same point as querying at `s`. -/
theorem get_target_point_periodic (track : Track) (s lookahead : ℚ) (lane : Option ℤ)
    (hL : 0 < track.total_length) :
    track.get_target_point (s + track.total_length) lookahead lane =
      track.get_target_point s lookahead lane := by
  unfold Track.get_target_point
  rw [qmod_add_right s track.total_length (ne_of_gt hL)]

/-- Witness for C8 at a concrete input: on the straight test track of length
90, the query at `3 + 90` equals the query at `3`. -/
theorem get_target_point_periodic_witness :
    0 < lineTrack.total_length ∧
    lineTrack.get_target_point (3 + lineTrack.total_length) 5 (some 2) =
      lineTrack.get_target_point 3 5 (some 2) :=
  ⟨by decide, get_target_point_periodic lineTrack 3 5 (some 2) (by decide)⟩

/-! ## C10: properties of the first-minimum index `np_argmin` -/

theorem list_min_le : ∀ (l : List ℚ) (x : ℚ), x ∈ l → list_min l ≤ x := by
  intro l
  induction l with
  | nil => intro x hx; cases hx
  | cons a t ih =>
    intro x hx
    cases t with
    | nil =>
      rcases List.mem_singleton.mp hx with rfl
      exact le_refl _
    | cons b t2 =>
      show min a (list_min (b :: t2)) ≤ x
      rcases List.mem_cons.mp hx with rfl | h
      · exact min_le_left _ _
      · exact le_trans (min_le_right _ _) (ih x h)

theorem le_list_min : ∀ (l : List ℚ) (x : ℚ), l ≠ [] → (∀ y ∈ l, x ≤ y) →
    x ≤ list_min l := by
  intro l
  induction l with
  | nil => intro x h; exact absurd rfl h
  | cons a t ih =>
    intro x _ hall
    cases t with
    | nil => exact hall a (List.mem_cons_self a [])
    | cons b t2 =>
      show x ≤ min a (list_min (b :: t2))
      exact le_min (hall a (List.mem_cons_self _ _))
        (ih x (List.cons_ne_nil _ _) (fun y hy => hall y (List.mem_cons_of_mem _ hy)))

theorem np_argmin_spec : ∀ (l : List ℚ), l ≠ [] →
    np_argmin l < l.length ∧ l.getD (np_argmin l) 0 = list_min l ∧
      ∀ j, j < np_argmin l → list_min l < l.getD j 0 := by
  intro l
  induction l with
  | nil => intro h; exact absurd rfl h
  | cons a t ih =>
    intro _
    cases t with
    | nil =>
      refine ⟨by simp [np_argmin], by simp [np_argmin, list_min], ?_⟩
      intro j hj
      simp [np_argmin] at hj
    | cons b t2 =>
      have hmb : list_min (a :: b :: t2) = min a (list_min (b :: t2)) := rfl
      have hab : np_argmin (a :: b :: t2) =
          if a ≤ list_min (b :: t2) then 0 else np_argmin (b :: t2) + 1 := rfl
      obtain ⟨ih1, ih2, ih3⟩ := ih (List.cons_ne_nil _ _)
      by_cases hc : a ≤ list_min (b :: t2)
      · rw [hab, if_pos hc]
        refine ⟨by simp, ?_, ?_⟩
        · show a = list_min (a :: b :: t2)
          rw [hmb, min_eq_left hc]
        · intro j hj; cases hj
      · rw [hab, if_neg hc]
        push_neg at hc
        have hminr : list_min (a :: b :: t2) = list_min (b :: t2) := by
          rw [hmb, min_eq_right (le_of_lt hc)]
        refine ⟨by simpa using Nat.succ_lt_succ ih1, ?_, ?_⟩
        · show (b :: t2).getD (np_argmin (b :: t2)) 0 = list_min (a :: b :: t2)
          rw [hminr]; exact ih2
        · intro j hj
          cases j with
          | zero => rw [hminr]; exact hc
          | succ j2 =>
            rw [hminr]
            exact ih3 j2 (Nat.lt_of_succ_lt_succ hj)

theorem np_argmin_eq_of : ∀ (l : List ℚ) (k : ℕ), k < l.length →
    (∀ j, j < k → l.getD k 0 < l.getD j 0) →
    (∀ j, j < l.length → l.getD k 0 ≤ l.getD j 0) →
    np_argmin l = k := by
  intro l
  induction l with
  | nil => intro k hk; simp at hk
  | cons a t ih =>
    intro k hk hfirst hmin
    cases t with
    | nil =>
      cases k with
      | zero => rfl
      | succ k2 => simp only [List.length_cons, List.length_nil] at hk; omega
    | cons b t2 =>
      have hab : np_argmin (a :: b :: t2) =
          if a ≤ list_min (b :: t2) then 0 else np_argmin (b :: t2) + 1 := rfl
      cases k with
      | zero =>
        rw [hab, if_pos]
        apply le_list_min _ _ (List.cons_ne_nil _ _)
        intro y hy
        obtain ⟨j, hj, rfl⟩ := List.mem_iff_getElem.mp hy
        have hlt : j + 1 < (a :: b :: t2).length := by
          simp only [List.length_cons] at hj ⊢; omega
        have h1 := hmin (j + 1) hlt
        have h0 : (a :: b :: t2).getD 0 0 = a := rfl
        have h2 : (a :: b :: t2).getD (j + 1) 0 = (b :: t2).getD j 0 := rfl
        rw [h0, h2, List.getD_eq_getElem _ _ hj] at h1
        exact h1
      | succ k2 =>
        have hk2 : k2 < (b :: t2).length := Nat.lt_of_succ_lt_succ hk
        have hgk : (a :: b :: t2).getD (k2 + 1) 0 = (b :: t2).getD k2 0 := rfl
        have hcond : ¬(a ≤ list_min (b :: t2)) := by
          push_neg
          have hmem : (b :: t2).getD k2 0 ∈ (b :: t2) := by
            rw [List.getD_eq_getElem _ _ hk2]; exact List.getElem_mem hk2
          have h1 : list_min (b :: t2) ≤ (b :: t2).getD k2 0 := list_min_le _ _ hmem
          have h2 : (a :: b :: t2).getD (k2 + 1) 0 < (a :: b :: t2).getD 0 0 :=
            hfirst 0 (Nat.succ_pos _)
          rw [hgk] at h2
          exact lt_of_le_of_lt h1 h2
        rw [hab, if_neg hcond]
        have hrec := ih k2 hk2
          (fun j hj => by
            have h3 := hfirst (j + 1) (Nat.succ_lt_succ hj)
            have h4 : (a :: b :: t2).getD (j + 1) 0 = (b :: t2).getD j 0 := rfl
            rw [hgk, h4] at h3
            exact h3)
          (fun j hj => by
            have hlt : j + 1 < (a :: b :: t2).length := by
              simp only [List.length_cons] at hj ⊢; omega
            have h3 := hmin (j + 1) hlt
            have h4 : (a :: b :: t2).getD (j + 1) 0 = (b :: t2).getD j 0 := rfl
            rw [hgk, h4] at h3
            exact h3)
        omega

theorem getD_take_drop (l : List ℚ) (s e j : ℕ) (h1 : s + j < e) :
    ((l.take e).drop s).getD j 0 = l.getD (s + j) 0 := by
  rw [List.getD_eq_getElem?_getD, List.getD_eq_getElem?_getD, List.getElem?_drop,
    List.getElem?_take, if_pos h1]

theorem distance_list_eq (ops : Ops) (track : Track) (x y : ℚ) :
    List.zipWith (fun cx cy => ops.sqrt ((cx - x) ^ 2 + (cy - y) ^ 2))
      track.centerline_x track.centerline_y = distance_list ops track x y := rfl

/-- The local first-minimum search over the refinement window
`[c - search_range, min N (c + search_range))` around the coarse
first-minimum index `c` lands exactly back on `c`. -/
theorem np_argmin_window (d : List ℚ) (N : ℕ) (hlen : d.length = N) (hN : 10 ≤ N) :
    (np_argmin d - min 50 (N / 10)) +
      np_argmin ((d.take (min N (np_argmin d + min 50 (N / 10)))).drop
        (np_argmin d - min 50 (N / 10))) = np_argmin d := by
  have hne : d ≠ [] := by
    intro h
    rw [h] at hlen
    simp at hlen
    omega
  obtain ⟨hlt, hmin_eq, hfirst⟩ := np_argmin_spec d hne
  set c := np_argmin d with hc
  set sr := min 50 (N / 10) with hsr
  have hsr1 : 1 ≤ sr := by
    refine le_min (by norm_num) ?_
    exact (Nat.one_le_div_iff (by norm_num)).mpr hN
  set st := c - sr with hst
  set en := min N (c + sr) with hen
  have hst_le : st ≤ c := Nat.sub_le _ _
  have hc_lt : c < N := by rw [← hlen]; exact hlt
  have hc_lt_en : c < en := lt_min hc_lt (by omega)
  have hen_le : en ≤ N := min_le_left _ _
  have hslen : ((d.take en).drop st).length = en - st := by
    rw [List.length_drop, List.length_take, hlen, Nat.min_eq_left hen_le]
  have hkey : np_argmin ((d.take en).drop st) = c - st := by
    apply np_argmin_eq_of
    · rw [hslen]; omega
    · intro j hj
      rw [getD_take_drop _ _ _ _ (by omega), getD_take_drop _ _ _ _ (by omega)]
      have hcst : st + (c - st) = c := by omega
      rw [hcst, hmin_eq]
      exact hfirst (st + j) (by omega)
    · intro j hj
      rw [hslen] at hj
      rw [getD_take_drop _ _ _ _ (by omega), getD_take_drop _ _ _ _ (by omega)]
      have hcst : st + (c - st) = c := by omega
      rw [hcst, hmin_eq]
      have hjN : st + j < d.length := by rw [hlen]; omega
      have hmem : d.getD (st + j) 0 ∈ d := by
        rw [List.getD_eq_getElem _ _ hjN]; exact List.getElem_mem hjN
      exact list_min_le _ _ hmem
  rw [hkey]
  omega

/-- C10: for every query point, the local-refinement step of
`project_car_position` returns exactly the index found by the coarse global
first-minimum search, and hence the projection returns
`arc_lengths[np_argmin distances]`. -/
theorem project_car_position_refinement (ops : Ops) (track : Track) (x y : ℚ)
    (hx : track.centerline_x.length = track.arc_lengths.length)
    (hy : track.centerline_y.length = track.arc_lengths.length)
    (hN : 10 ≤ track.arc_lengths.length) :
    Track.project_refined_idx ops track x y = np_argmin (distance_list ops track x y) ∧
    Track.project_car_position ops track x y =
      track.arc_lengths.getD (np_argmin (distance_list ops track x y)) 0 := by
  have hlen : (distance_list ops track x y).length = track.arc_lengths.length := by
    simp [distance_list, List.length_zipWith, hx, hy]
  have hw := np_argmin_window (distance_list ops track x y) track.arc_lengths.length hlen hN
  constructor
  · simp only [Track.project_refined_idx, ← List.take_zipWith, ← List.drop_zipWith,
      distance_list_eq]
    exact hw
  · simp only [Track.project_car_position, ← List.take_zipWith, ← List.drop_zipWith,
      distance_list_eq]
    congr 1

/-- Witness for C10 at a concrete input: projecting the point `(17, 1)` onto
the 10-sample straight test track. -/
theorem project_car_position_refinement_witness :
    lineTrack.centerline_x.length = lineTrack.arc_lengths.length ∧
    lineTrack.centerline_y.length = lineTrack.arc_lengths.length ∧
    10 ≤ lineTrack.arc_lengths.length ∧
    (Track.project_refined_idx opsD lineTrack 17 1 =
        np_argmin (distance_list opsD lineTrack 17 1) ∧
     Track.project_car_position opsD lineTrack 17 1 =
        lineTrack.arc_lengths.getD (np_argmin (distance_list opsD lineTrack 17 1)) 0) :=
  ⟨by decide, by decide, by decide,
    project_car_position_refinement opsD lineTrack 17 1 (by decide) (by decide) (by decide)⟩

/-! ## C2 -/

theorem sim_update_car_eliminated (ops : Ops) (track : Track) (dt : ℚ) (ros : List Car)
    (idx : ℕ) (h : (ros.getD idx default).eliminated = true) :
    sim_update_car ops track dt ros idx = (ros, none) := by
  unfold sim_update_car
  rw [if_pos h]

theorem sim_update_car_snd_active (ops : Ops) (track : Track) (dt : ℚ) (ros : List Car)
    (idx : ℕ) (h : ¬(ros.getD idx default).eliminated = true) :
    (sim_update_car ops track dt ros idx).2 =
      some (cycle_command ops track dt ros idx) := by
  unfold sim_update_car
  rw [if_neg h]
  rfl

theorem run_cycle_go_append (ops : Ops) (track : Track) (dt : ℚ) :
    ∀ (l : List ℕ) (st : List Car × List (ℚ × ℚ)),
      ∃ suffix, (run_cycle_go ops track dt l st).2 = st.2 ++ suffix := by
  intro l
  induction l with
  | nil => intro st; exact ⟨[], by simp [run_cycle_go]⟩
  | cons i t ih =>
    intro st
    rw [run_cycle_go]
    obtain ⟨suf, hsuf⟩ := ih ((sim_update_car ops track dt st.1 i).1,
      st.2 ++ (sim_update_car ops track dt st.1 i).2.toList)
    exact ⟨(sim_update_car ops track dt st.1 i).2.toList ++ suf,
      by rw [hsuf]; simp⟩

theorem snapshot_go_append (ops : Ops) (track : Track) (dt : ℚ) (cars : List Car) :
    ∀ (l : List ℕ) (cmds : List (ℚ × ℚ)),
      ∃ suffix, snapshot_go ops track dt cars l cmds = cmds ++ suffix := by
  intro l
  induction l with
  | nil => intro cmds; exact ⟨[], by simp [snapshot_go]⟩
  | cons i t ih =>
    intro cmds
    rw [snapshot_go]
    by_cases h : (cars.getD i default).eliminated
    · rw [if_pos h]
      exact ih cmds
    · rw [if_neg h]
      obtain ⟨suf, hsuf⟩ := ih (cmds ++ [cycle_command ops track dt cars i])
      exact ⟨cycle_command ops track dt cars i :: suf, by rw [hsuf]; simp⟩

/-- C2 (amended part): the first active vehicle's command in the per-vehicle
update loop coincides with the frozen-snapshot reference command, for every
numeric backend, track, step size and initial roster. -/
theorem run_cycle_head_command_eq_snapshot (ops : Ops) (track : Track) (dt : ℚ)
    (cars : List Car) :
    ((run_cycle ops track dt cars).2).head? =
      (snapshot_commands ops track dt cars).head? := by
  unfold run_cycle snapshot_commands
  generalize List.range cars.length = l
  induction l with
  | nil => rfl
  | cons i t ih =>
    rw [run_cycle_go, snapshot_go]
    by_cases h : (cars.getD i default).eliminated
    · rw [if_pos h, sim_update_car_eliminated ops track dt cars i h]
      exact ih
    · rw [if_neg h]
      obtain ⟨sa, hsa⟩ := run_cycle_go_append ops track dt t
        ((sim_update_car ops track dt cars i).1,
          [] ++ (sim_update_car ops track dt cars i).2.toList)
      obtain ⟨sb, hsb⟩ := snapshot_go_append ops track dt cars t
        ([] ++ [cycle_command ops track dt cars i])
      rw [hsa, hsb, sim_update_car_snd_active ops track dt cars i h]
      simp

/-! The concrete two-car scenario refuting the frozen-snapshot equivalence:
a leader 10 m ahead of a follower, both at 5 m/s in lane 2.  The
intermediate rosters are evaluated step by step. -/

def cexCars : List Car := [mkTestCar 0 10 5, mkTestCar 1 0 5]

def cexCar0t : Car := { mkTestCar 0 10 5 with lane_change_timer := 9 }

def cexCar0d : Car := { mkTestCar 0 10 5 with
  x := 255/16, velocity := 95/16, acceleration := 15/16, lane_change_timer := 9 }

def cexCar0u : Car := { mkTestCar 0 10 5 with
  x := 255/16, velocity := 95/16, acceleration := 15/16, s_position := 20,
  lane_change_timer := 9, trajectory := [⟨255/16, 0, 0, 95/16, 15/16, 20, 0⟩],
  last_lap_start_time := 1 }

def cexCar1t : Car := { mkTestCar 1 0 5 with lane_change_timer := 9 }

def cexCar1d : Car := { mkTestCar 1 0 5 with
  x := 3019123/520200, velocity := 3019123/520200, acceleration := 418123/520200,
  lane_change_timer := 9 }

def cexCar1u : Car := { mkTestCar 1 0 5 with
  x := 3019123/520200, velocity := 3019123/520200, acceleration := 418123/520200,
  s_position := 10, lane_change_timer := 9,
  trajectory := [⟨3019123/520200, 0, 0, 3019123/520200, 418123/520200, 10, 0⟩],
  last_lap_start_time := 1 }

theorem c2_e0 : cexCars.getD 0 default = mkTestCar 0 10 5 := by decide

theorem c2_h1 : dec_timer 1 (mkTestCar 0 10 5) = cexCar0t := by decide

theorem c2_ecc0 : cexCar0t.controller = testController := by decide

theorem c2_eset0 : cexCars.set 0 cexCar0t = [cexCar0t, mkTestCar 1 0 5] := by decide

theorem c2_eact0 : active_cars [cexCar0t, mkTestCar 1 0 5] =
    [cexCar0t, mkTestCar 1 0 5] := by decide

set_option maxHeartbeats 1000000 in
theorem c2_hctl0 : compute_control opsD testController cexCar0t lineTrack
    [cexCar0t, mkTestCar 1 0 5] 50 = (cexCar0t, (15/16, 0)) := by decide

theorem c2_hdyn0 : update_car_dynamics opsD cexCar0t (15/16) 0 1 = cexCar0d := by decide

set_option maxHeartbeats 1000000 in
theorem c2_hups0 : update_state opsD lineTrack 1 cexCar0d = cexCar0u := by decide

theorem c2_hset0 : [cexCar0t, mkTestCar 1 0 5].set 0 cexCar0u =
    [cexCar0u, mkTestCar 1 0 5] := by decide

theorem c2_S0 : sim_update_car opsD lineTrack 1 cexCars 0 =
    ([cexCar0u, mkTestCar 1 0 5], some (15/16, 0)) := by
  simp only [sim_update_car, c2_e0, c2_h1, c2_ecc0, c2_eset0, c2_eact0, c2_hctl0,
    c2_hdyn0, c2_hups0, c2_hset0]
  decide

theorem c2_e1 : ([cexCar0u, mkTestCar 1 0 5] : List Car).getD 1 default =
    mkTestCar 1 0 5 := by decide

theorem c2_h1b : dec_timer 1 (mkTestCar 1 0 5) = cexCar1t := by decide

theorem c2_ecc1 : cexCar1t.controller = testController := by decide

theorem c2_eset1 : ([cexCar0u, mkTestCar 1 0 5] : List Car).set 1 cexCar1t =
    [cexCar0u, cexCar1t] := by decide

theorem c2_eact1 : active_cars [cexCar0u, cexCar1t] = [cexCar0u, cexCar1t] := by decide

set_option maxHeartbeats 1000000 in
theorem c2_hctl1 : compute_control opsD testController cexCar1t lineTrack
    [cexCar0u, cexCar1t] 50 = (cexCar1t, (418123/520200, 0)) := by decide

theorem c2_hdyn1 : update_car_dynamics opsD cexCar1t (418123/520200) 0 1 =
    cexCar1d := by decide

set_option maxHeartbeats 1000000 in
theorem c2_hups1 : update_state opsD lineTrack 1 cexCar1d = cexCar1u := by decide

theorem c2_hset1 : ([cexCar0u, cexCar1t] : List Car).set 1 cexCar1u =
    [cexCar0u, cexCar1u] := by decide

theorem c2_S1 : sim_update_car opsD lineTrack 1 [cexCar0u, mkTestCar 1 0 5] 1 =
    ([cexCar0u, cexCar1u], some (418123/520200, 0)) := by
  simp only [sim_update_car, c2_e1, c2_h1b, c2_ecc1, c2_eset1, c2_eact1, c2_hctl1,
    c2_hdyn1, c2_hups1, c2_hset1]
  decide

theorem c2_run : (run_cycle opsD lineTrack 1 cexCars).2 =
    [(15/16, 0), (418123/520200, 0)] := by
  unfold run_cycle
  rw [show List.range cexCars.length = [0, 1] from by decide]
  simp only [run_cycle_go, c2_S0, c2_S1]
  decide

set_option maxHeartbeats 1000000 in
theorem c2_q0 : cycle_command opsD lineTrack 1 cexCars 0 = (15/16, 0) := by decide

set_option maxHeartbeats 1000000 in
theorem c2_q1 : cycle_command opsD lineTrack 1 cexCars 1 = (179/400, 0) := by decide

theorem c2_snap : snapshot_commands opsD lineTrack 1 cexCars =
    [(15/16, 0), (179/400, 0)] := by
  unfold snapshot_commands
  rw [show List.range cexCars.length = [0, 1] from by decide]
  simp only [snapshot_go, c2_q0, c2_q1]
  decide

/-- C2 (counterexample): with a leader and a follower in the same lane, the
commands produced by the per-vehicle update loop differ from those of the
frozen-snapshot reference loop — the follower's controller reads the
leader's already-integrated position. -/
theorem run_cycle_commands_ne_snapshot :
    (run_cycle opsD lineTrack 1 cexCars).2 ≠ snapshot_commands opsD lineTrack 1 cexCars := by
  rw [c2_run, c2_snap]
  decide

/-! ## C3: the eliminated flag through one fixed-timestep cycle -/

theorem getD_set_self_car (l : List Car) (i : ℕ) (a : Car) (h : i < l.length) :
    (l.set i a).getD i default = a := by
  rw [List.getD_eq_getElem?_getD, List.getElem?_set_self h]
  rfl

theorem getD_set_ne_car (l : List Car) (i k : ℕ) (a : Car) (h : k ≠ i) :
    (l.set i a).getD k default = l.getD k default := by
  rw [List.getD_eq_getElem?_getD, List.getD_eq_getElem?_getD,
    List.getElem?_set_ne (fun hh => h hh.symm)]

theorem getD_set_eliminated (l : List Car) (i k : ℕ) (a : Car)
    (ha : a.eliminated = (l.getD i default).eliminated) :
    ((l.set i a).getD k default).eliminated = (l.getD k default).eliminated := by
  by_cases hk : k = i
  · subst hk
    by_cases hlt : k < l.length
    · rw [getD_set_self_car _ _ _ hlt, ha]
    · rw [List.set_eq_of_length_le (le_of_not_lt hlt)]
  · rw [getD_set_ne_car _ _ _ _ hk]

theorem dec_timer_eliminated (dt : ℚ) (car : Car) :
    (dec_timer dt car).eliminated = car.eliminated := by
  unfold dec_timer
  split <;> rfl

theorem update_car_dynamics_eliminated (ops : Ops) (car : Car) (a s dt : ℚ) :
    (update_car_dynamics ops car a s dt).eliminated = car.eliminated := rfl

theorem update_state_eliminated (ops : Ops) (track : Track) (dt : ℚ) (car : Car) :
    (update_state ops track dt car).eliminated = car.eliminated := by
  simp only [update_state]
  split <;> rfl

theorem compute_control_fst_eliminated (ops : Ops) (cc : CombinedController) (car : Car)
    (track : Track) (all_cars : List Car) (sr : ℚ) :
    ((compute_control ops cc car track all_cars sr).1).eliminated = car.eliminated := by
  simp only [compute_control]
  split <;> (try split) <;> (try split) <;> rfl

theorem sim_update_car_eliminated_pointwise (ops : Ops) (track : Track) (dt : ℚ)
    (ros : List Car) (idx : ℕ) (k : ℕ) :
    (((sim_update_car ops track dt ros idx).1).getD k default).eliminated =
      ((ros.getD k default)).eliminated := by
  unfold sim_update_car
  by_cases h : (ros.getD idx default).eliminated = true
  · rw [if_pos h]
  · rw [if_neg h]
    have h1 : ∀ k2, (((ros.set idx (dec_timer dt (ros.getD idx default))).getD k2
        default)).eliminated = ((ros.getD k2 default)).eliminated := fun k2 =>
      getD_set_eliminated _ _ _ _ (dec_timer_eliminated dt _)
    refine (getD_set_eliminated _ _ _ _ ?_).trans (h1 k)
    rw [update_state_eliminated, update_car_dynamics_eliminated,
      compute_control_fst_eliminated, dec_timer_eliminated, h1 idx]

theorem run_cycle_go_eliminated_pointwise (ops : Ops) (track : Track) (dt : ℚ) :
    ∀ (l : List ℕ) (st : List Car × List (ℚ × ℚ)) (k : ℕ),
      (((run_cycle_go ops track dt l st).1).getD k default).eliminated =
        ((st.1.getD k default)).eliminated := by
  intro l
  induction l with
  | nil => intro st k; rfl
  | cons i t ih =>
    intro st k
    rw [run_cycle_go]
    exact (ih _ k).trans (sim_update_car_eliminated_pointwise ops track dt st.1 i k)

theorem apply_collision_hit_eliminated (s : ℚ) (c : Car) :
    (apply_collision_hit s c).eliminated = c.eliminated := rfl

theorem cc_pair_step_eliminated_pointwise (ops : Ops) (r t : ℚ) (i j : ℕ) (st : CCState)
    (k : ℕ) (_hij : i ≠ j) :
    (((cc_pair_step ops r t i j st).1).getD k default).eliminated =
      ((st.1.getD k default)).eliminated := by
  simp only [cc_pair_step]
  split
  · rfl
  · split
    · rfl
    · split
      · have h1 : ∀ k2, (((st.1.set i (apply_collision_hit
            (mk_collision_event ops t (st.1.getD i default) (st.1.getD j default)).severity
            (st.1.getD i default))).getD k2 default)).eliminated =
            ((st.1.getD k2 default)).eliminated := fun k2 =>
          getD_set_eliminated _ _ _ _ (apply_collision_hit_eliminated _ _)
        refine (getD_set_eliminated _ _ _ _ ?_).trans (h1 k)
        rw [apply_collision_hit_eliminated, h1 j]
      · rfl

theorem cc_inner_go_eliminated_pointwise (ops : Ops) (r t : ℚ) (i : ℕ) :
    ∀ (js : List ℕ) (st : CCState) (k : ℕ), (∀ j ∈ js, i ≠ j) →
      (((cc_inner_go ops r t i js st).1).getD k default).eliminated =
        ((st.1.getD k default)).eliminated := by
  intro js
  induction js with
  | nil => intro st k _; rfl
  | cons j js2 ih =>
    intro st k hj
    rw [cc_inner_go]
    exact (ih _ k (fun j2 hj2 => hj j2 (List.mem_cons_of_mem _ hj2))).trans
      (cc_pair_step_eliminated_pointwise ops r t i j st k (hj j (List.mem_cons_self _ _)))

theorem cc_outer_step_eliminated_pointwise (ops : Ops) (r t : ℚ) (n i : ℕ) (st : CCState)
    (k : ℕ) :
    (((cc_outer_step ops r t n i st).1).getD k default).eliminated =
      ((st.1.getD k default)).eliminated := by
  simp only [cc_outer_step]
  split
  · rfl
  · refine cc_inner_go_eliminated_pointwise ops r t i _ st k ?_
    intro j hj
    rw [List.mem_range'] at hj
    omega

theorem cc_outer_go_eliminated_pointwise (ops : Ops) (r t : ℚ) (n : ℕ) :
    ∀ (l : List ℕ) (st : CCState) (k : ℕ),
      (((cc_outer_go ops r t n l st).1).getD k default).eliminated =
        ((st.1.getD k default)).eliminated := by
  intro l
  induction l with
  | nil => intro st k; rfl
  | cons i t2 ih =>
    intro st k
    rw [cc_outer_go]
    exact (ih _ k).trans (cc_outer_step_eliminated_pointwise ops r t n i st k)

theorem run_cycle_eliminated_pointwise (ops : Ops) (track : Track) (dt : ℚ)
    (cars : List Car) (k : ℕ) :
    (((run_cycle ops track dt cars).1).getD k default).eliminated =
      ((cars.getD k default)).eliminated := by
  unfold run_cycle
  exact run_cycle_go_eliminated_pointwise ops track dt (List.range cars.length) (cars, []) k

theorem check_collisions_eliminated_pointwise (ops : Ops) (r : ℚ) (cars : List Car)
    (t : ℚ) (k : ℕ) :
    (((check_collisions ops r cars t).1).getD k default).eliminated =
      ((cars.getD k default)).eliminated := by
  unfold check_collisions
  exact cc_outer_go_eliminated_pointwise ops r t cars.length (List.range cars.length)
    (cars, [], []) k

/-- C3 (amended part): with elimination disabled in the configuration, the
fixed-timestep scheduler never sets any vehicle's eliminated flag — over any
number of cycles, any roll stream and any starting step. -/
theorem elimination_disabled_no_elimination_fixed (ops : Ops) (track : Track)
    (cfg : SimConfig) (hdis : cfg.elimination_enabled = false) :
    ∀ (n : ℕ) (rolls : List ℕ) (step : ℕ) (cars : List Car) (k : ℕ),
      ¬((cars.getD k default)).eliminated →
      ¬(((fixed_run ops track cfg n rolls step cars).getD k default)).eliminated := by
  intro n
  induction n with
  | zero => intro rolls step cars k h; exact h
  | succ m ih =>
    intro rolls step cars k h
    rw [fixed_run]
    split
    · exact h
    · split
      · exact h
      · apply ih
        show ¬(((fixed_cycle ops track cfg rolls ((step : ℚ) * cfg.dt) cars).1.getD k
          default)).eliminated
        unfold fixed_cycle
        rw [hdis]
        simp only [Bool.false_eq_true, if_false]
        rw [check_collisions_eliminated_pointwise, run_cycle_eliminated_pointwise]
        exact h

/-- Witness for C3's amended theorem at a concrete input: a one-car roster
with elimination disabled stays free of eliminations. -/
theorem elimination_disabled_no_elimination_fixed_witness :
    cfgElimOff.elimination_enabled = false ∧
    ¬((([mkTestCar 0 0 0] : List Car).getD 0 default)).eliminated ∧
    ¬(((fixed_run opsD lineTrack cfgElimOff 1 [] 0 [mkTestCar 0 0 0]).getD 0
      default)).eliminated := by
  refine ⟨rfl, by decide, ?_⟩
  exact elimination_disabled_no_elimination_fixed opsD lineTrack cfgElimOff rfl 1 [] 0
    [mkTestCar 0 0 0] 0 (by decide)

/-- The car of C3's Markov counterexample: an aggressive car that has never
collided. -/
def c3Car : Car := { mkTestCar 0 0 0 with strategy_type := .aggressive }

/-- C3 (counterexample): the Markov strategy-transition layer ignores the
elimination-enabled flag: with elimination disabled in the configuration, a
sampled transition to `eliminated` (which carries positive probability 1/20
for this car) still sets the vehicle's eliminated flag during a Markov
cycle. -/
theorem markov_cycle_eliminates_despite_disabled :
    cfgElimOff.elimination_enabled = false ∧
    (Strategy.eliminated, (1 : ℚ)/20) ∈ (update_transition_probabilities c3Car).getD [] ∧
    (((markov_cycle opsD lineTrack testCCfg cfgElimOff (fun _ => .eliminated) [] 0
      [c3Car]).1.getD 0 default)).eliminated = true := by
  refine ⟨rfl, by decide, by decide⟩

/-! ## C4 -/

/-- A car flagged eliminated by a Markov transition: flag set,
`elimination_time` still unset. -/
def c4CarE : Car := { mkTestCar 0 0 5 with
  eliminated := true, elimination_reason := some ElimReason.markovTransition }

/-- C4: a vehicle flagged eliminated with `elimination_time = None` is never
timestamped by the collision/elimination pass: `check_collisions` skips
eliminated cars (so no event mentions the flagged car, even though an active
car sits at the very same position within the collision radius), and
`_check_eliminations` rolls only for non-eliminated cars — the flagged car
comes out of the full pass still flagged and still without an elimination
time, even with rolls that would eliminate (1 < 6). -/
theorem markov_flagged_car_never_timestamped :
    c4CarE.eliminated = true ∧ c4CarE.elimination_time = none ∧
    ((check_collisions opsD cfgElimOn.collision_radius [c4CarE, mkTestCar 1 0 5] 0).2 = [] ∧
     ((check_eliminations cfgElimOn.elimination_chance 0
        (check_collisions opsD cfgElimOn.collision_radius [c4CarE, mkTestCar 1 0 5] 0).2
        [1, 1]
        (check_collisions opsD cfgElimOn.collision_radius [c4CarE, mkTestCar 1 0 5] 0).1).1.getD
        0 default).eliminated = true ∧
     ((check_eliminations cfgElimOn.elimination_chance 0
        (check_collisions opsD cfgElimOn.collision_radius [c4CarE, mkTestCar 1 0 5] 0).2
        [1, 1]
        (check_collisions opsD cfgElimOn.collision_radius [c4CarE, mkTestCar 1 0 5] 0).1).1.getD
        0 default).elimination_time = none) := by
  refine ⟨rfl, rfl, by decide, by decide, by decide⟩

/-! ## C9 -/

theorem des_handle_no_schedule (ops : Ops) (track : Track) (cfg : SimConfig) (ev : DEvent)
    (cars : List Car) (cols : List CollisionEvent) :
    (des_handle ops track cfg ev cars cols).2.2 = [] := by
  unfold des_handle
  split <;> rfl

theorem pop_min_mem (q : List DEvent) (ev : DEvent) (q' : List DEvent)
    (h : pop_min q = some (ev, q')) : ev ∈ q ∧ ∀ x ∈ q', x ∈ q := by
  unfold pop_min at h
  match q, h with
  | e0 :: q0, h =>
    simp only [Option.some.injEq, Prod.mk.injEq] at h
    obtain ⟨hev, hq'⟩ := h
    constructor
    · have hlen : np_argmin ((e0 :: q0).map (fun e => e.time)) < (e0 :: q0).length := by
        have := (np_argmin_spec ((e0 :: q0).map (fun e => e.time)) (by simp)).1
        simpa using this
      rw [← hev, List.getD_eq_getElem _ _ hlen]
      exact List.getElem_mem hlen
    · intro x hx
      rw [← hq'] at hx
      rcases List.mem_append.mp hx with hx2 | hx2
      · exact List.take_subset _ _ hx2
      · exact List.drop_subset _ _ hx2

theorem des_run_no_collision_events (ops : Ops) (track : Track) (cfg : SimConfig) :
    ∀ (fuel : ℕ) (st : DESState), (∀ e ∈ st.queue, e.etype ≠ .collision) →
      (∀ e ∈ (des_run ops track cfg fuel st).2, e.etype ≠ .collision) ∧
      (∀ e ∈ (des_run ops track cfg fuel st).1.queue, e.etype ≠ .collision) := by
  intro fuel
  induction fuel with
  | zero =>
    intro st hq
    exact ⟨fun e he => absurd he (List.not_mem_nil e), hq⟩
  | succ m ih =>
    intro st hq
    rw [des_run]
    split
    · cases hpop : pop_min st.queue with
      | none => exact ⟨fun e he => absurd he (List.not_mem_nil e), hq⟩
      | some p =>
        obtain ⟨hev, hsub⟩ := pop_min_mem st.queue p.1 p.2 (by rw [hpop])
        have hq' : ∀ e ∈ p.2, e.etype ≠ EType.collision := fun e he => hq e (hsub e he)
        simp only [hpop]
        split
        · exact ⟨fun e he => by
            rcases List.mem_singleton.mp he with rfl
            exact hq _ hev, hq'⟩
        · split
          · exact ⟨fun e he => by
              rcases List.mem_singleton.mp he with rfl
              exact hq _ hev, hq'⟩
          · rw [des_handle_no_schedule, List.append_nil]
            have hrec := ih
              { queue := p.2, time := p.1.time,
                cars := (des_handle ops track cfg p.1 st.cars st.collisions).1,
                collisions := (des_handle ops track cfg p.1 st.cars st.collisions).2.1 }
              hq'
            refine ⟨fun e he => ?_, hrec.2⟩
            rcases List.mem_cons.mp he with rfl | he2
            · exact hq _ hev
            · exact hrec.1 e he2
    · exact ⟨fun e he => absurd he (List.not_mem_nil e), hq⟩

theorem initial_events_no_collision (tl dt : ℚ) :
    ∀ e ∈ initial_events tl dt, e.etype ≠ .collision := by
  intro e he
  unfold initial_events at he
  rcases List.mem_append.mp he with h | h <;>
    · obtain ⟨i, _, rfl⟩ := List.mem_map.mp h
      simp

/-- C9 (amended part): during every run of the event-driven scheduler, every
event ever processed and every event remaining in the queue is one of the
two pre-built periodic kinds; no predictive `collision` event is ever
scheduled (the predictive checker `_check_collision_event` is never invoked
by `run` or by any handler). -/
theorem des_run_only_periodic_events (ops : Ops) (track : Track) (cfg : SimConfig)
    (fuel : ℕ) (cars : List Car) :
    (∀ e ∈ (des_run ops track cfg fuel
        ⟨initial_events cfg.time_limit cfg.dt, 0, cars, []⟩).2, e.etype ≠ .collision) ∧
    (∀ e ∈ (des_run ops track cfg fuel
        ⟨initial_events cfg.time_limit cfg.dt, 0, cars, []⟩).1.queue,
      e.etype ≠ .collision) :=
  des_run_no_collision_events ops track cfg fuel _
    (initial_events_no_collision cfg.time_limit cfg.dt)

/-- The discrete-event counterexample configuration: one update tick and one
collision check inside the horizon. -/
def cfgDES9 : SimConfig :=
  { dt := 1/10, collision_radius := 2, ttc_threshold := 2, elimination_enabled := true,
    elimination_chance := 6, target_laps := 0, time_limit := 1/10 }

/-- C9 (counterexample): two vehicles that are closing with projected
time-to-contact 2 s < 5 s (the very condition of `_check_collision_event`),
yet over the whole event-driven run no predictive `collision` event ever
appears — neither among the processed events nor in the remaining queue. -/
theorem des_run_no_predictive_event_despite_closing :
    check_collision_event_pred opsD cfgDES9.collision_radius (mkTestCar 0 0 5)
      (mkTestCar 1 10 0) = true ∧
    ((des_run opsD lineTrack cfgDES9 5
        ⟨initial_events cfgDES9.time_limit cfgDES9.dt, 0,
          [mkTestCar 0 0 5, mkTestCar 1 10 0], []⟩).2 ++
      (des_run opsD lineTrack cfgDES9 5
        ⟨initial_events cfgDES9.time_limit cfgDES9.dt, 0,
          [mkTestCar 0 0 5, mkTestCar 1 10 0], []⟩).1.queue).filter
      (fun e => e.etype == EType.collision) = [] := by
  refine ⟨by decide, by decide⟩

/-! ## C6: characterization of one collision pass -/

/-- Whether a collision event mentions the given car id. -/
def involves (idv : ℕ) (e : CollisionEvent) : Bool :=
  decide (e.car_id1 = idv ∨ e.car_id2 = idv)

/-- Replay a list of collision events onto one car's statistics. -/
def apply_events_to (evs : List CollisionEvent) (c : Car) : Car :=
  evs.foldl (fun a e => if involves a.car_id e then apply_collision_hit e.severity a else a) c

/-- The pure detection predicate of one pass: both cars active and within the
collision radius. -/
def collides_b (ops : Ops) (r : ℚ) (c1 c2 : Car) : Bool :=
  !c1.eliminated && !c2.eliminated && decide (car_distance ops c1 c2 < r)

/-- The event (if any) the pass produces for the index pair `p`. -/
def detect (ops : Ops) (r t : ℚ) (cars : List Car) (p : ℕ × ℕ) : Option CollisionEvent :=
  if collides_b ops r (cars.getD p.1 default) (cars.getD p.2 default) then
    some (mk_collision_event ops t (cars.getD p.1 default) (cars.getD p.2 default))
  else none

/-- All index pairs `(i, j)` with `i < j < n`, in the iteration order of the
nested loops. -/
def pair_list (n : ℕ) : List (ℕ × ℕ) :=
  (List.range n).flatMap (fun i => (List.range' (i + 1) (n - (i + 1))).map (fun j => (i, j)))

/-- The events of one pass, as a pure function of the input roster. -/
def spec_events (ops : Ops) (r t : ℚ) (cars : List Car) : List CollisionEvent :=
  (pair_list cars.length).filterMap (detect ops r t cars)

/-- The key of an event's unordered id pair. -/
def event_key (e : CollisionEvent) : ℕ × ℕ := pair_key e.car_id1 e.car_id2

/-- The intermediate `check_collisions` state after a set of processed
pairs. -/
def cc_state_of (ops : Ops) (r t : ℚ) (cars : List Car) (processed : List (ℕ × ℕ)) :
    CCState :=
  let evs := processed.filterMap (detect ops r t cars)
  (cars.map (apply_events_to evs), (evs.map event_key).reverse, evs)

theorem pair_key_eq_iff (a b c d : ℕ) :
    pair_key a b = pair_key c d ↔ (a = c ∧ b = d) ∨ (a = d ∧ b = c) := by
  unfold pair_key
  split <;> split <;> simp only [Prod.mk.injEq] <;> omega

theorem apply_collision_hit_fields (s : ℚ) (c : Car) :
    (apply_collision_hit s c).car_id = c.car_id ∧
    (apply_collision_hit s c).x = c.x ∧ (apply_collision_hit s c).y = c.y ∧
    (apply_collision_hit s c).yaw = c.yaw ∧
    (apply_collision_hit s c).velocity = c.velocity ∧
    (apply_collision_hit s c).eliminated = c.eliminated ∧
    (apply_collision_hit s c).lap_count = c.lap_count :=
  ⟨rfl, rfl, rfl, rfl, rfl, rfl, rfl⟩

theorem apply_events_to_fields (evs : List CollisionEvent) :
    ∀ (c : Car),
      (apply_events_to evs c).car_id = c.car_id ∧
      (apply_events_to evs c).x = c.x ∧ (apply_events_to evs c).y = c.y ∧
      (apply_events_to evs c).yaw = c.yaw ∧
      (apply_events_to evs c).velocity = c.velocity ∧
      (apply_events_to evs c).eliminated = c.eliminated ∧
      (apply_events_to evs c).lap_count = c.lap_count := by
  induction evs with
  | nil => intro c; exact ⟨rfl, rfl, rfl, rfl, rfl, rfl, rfl⟩
  | cons e evs ih =>
    intro c
    have hstep : apply_events_to (e :: evs) c =
        apply_events_to evs (if involves c.car_id e then apply_collision_hit e.severity c
          else c) := rfl
    rw [hstep]
    by_cases hinv : involves c.car_id e
    · rw [if_pos hinv]
      obtain ⟨h1, h2, h3, h4, h5, h6, h7⟩ := ih (apply_collision_hit e.severity c)
      exact ⟨h1.trans rfl, h2.trans rfl, h3.trans rfl, h4.trans rfl, h5.trans rfl,
        h6.trans rfl, h7.trans rfl⟩
    · rw [if_neg hinv]
      exact ih c

theorem apply_events_to_append (evs : List CollisionEvent) (e : CollisionEvent) (c : Car) :
    apply_events_to (evs ++ [e]) c =
      (if involves (apply_events_to evs c).car_id e then
        apply_collision_hit e.severity (apply_events_to evs c)
      else apply_events_to evs c) := by
  unfold apply_events_to
  rw [List.foldl_append]
  rfl

theorem apply_events_to_counts (evs : List CollisionEvent) :
    ∀ (c : Car),
      (apply_events_to evs c).collision_count =
        c.collision_count + (evs.filter (involves c.car_id)).length ∧
      (apply_events_to evs c).total_collision_severity =
        c.total_collision_severity +
          ((evs.filter (involves c.car_id)).map (fun e => e.severity)).sum := by
  induction evs with
  | nil => intro c; exact ⟨rfl, by simp [apply_events_to]⟩
  | cons e evs ih =>
    intro c
    have hstep : apply_events_to (e :: evs) c =
        apply_events_to evs (if involves c.car_id e then apply_collision_hit e.severity c
          else c) := rfl
    rw [hstep]
    by_cases hinv : involves c.car_id e
    · obtain ⟨h1, h2⟩ := ih (apply_collision_hit e.severity c)
      rw [if_pos hinv]
      have hid : (apply_collision_hit e.severity c).car_id = c.car_id := rfl
      rw [hid] at h1 h2
      constructor
      · rw [h1, List.filter_cons, if_pos hinv]
        simp [apply_collision_hit]
        omega
      · rw [h2, List.filter_cons, if_pos hinv]
        simp [apply_collision_hit]
        ring
    · obtain ⟨h1, h2⟩ := ih c
      rw [if_neg hinv]
      constructor
      · rw [h1, List.filter_cons, if_neg hinv]
      · rw [h2, List.filter_cons, if_neg hinv]

theorem pair_list_mem (n : ℕ) (a b : ℕ) :
    (a, b) ∈ pair_list n ↔ a < b ∧ b < n := by
  unfold pair_list
  simp only [List.mem_flatMap, List.mem_map, List.mem_range, List.mem_range']
  constructor
  · rintro ⟨i, hi, j, ⟨k, hk, hjk⟩, heq⟩
    have h1 : i = a := congrArg Prod.fst heq
    have h2 : j = b := congrArg Prod.snd heq
    omega
  · rintro ⟨hab, hbn⟩
    exact ⟨a, by omega, b, ⟨b - (a + 1), by omega, by omega⟩, rfl⟩

theorem getD_map_apply (cars : List Car) (evs : List CollisionEvent) (k : ℕ)
    (hk : k < cars.length) :
    (cars.map (apply_events_to evs)).getD k default =
      apply_events_to evs (cars.getD k default) := by
  rw [List.getD_eq_getElem _ _ (by simpa using hk), List.getD_eq_getElem _ _ hk,
    List.getElem_map]

theorem ids_injective (cars : List Car) (hids : (cars.map Car.car_id).Nodup)
    (a b : ℕ) (ha : a < cars.length) (hb : b < cars.length)
    (heq : (cars.getD a default).car_id = (cars.getD b default).car_id) : a = b := by
  have ha2 : a < (cars.map Car.car_id).length := by simpa using ha
  have hb2 : b < (cars.map Car.car_id).length := by simpa using hb
  have hmap : (cars.map Car.car_id)[a] = (cars.map Car.car_id)[b] := by
    rw [List.getElem_map, List.getElem_map]
    rw [List.getD_eq_getElem _ _ ha, List.getD_eq_getElem _ _ hb] at heq
    exact heq
  exact hids.getElem_inj_iff.mp hmap

theorem list_eq_of_getD (l1 l2 : List Car) (hlen : l1.length = l2.length)
    (h : ∀ k, k < l1.length → l1.getD k default = l2.getD k default) : l1 = l2 := by
  apply List.ext_getElem hlen
  intro n h1 h2
  have h3 := h n h1
  rwa [List.getD_eq_getElem _ _ h1, List.getD_eq_getElem _ _ h2] at h3

theorem car_distance_apply_events (ops : Ops) (evs : List CollisionEvent) (c1 c2 : Car) :
    car_distance ops (apply_events_to evs c1) (apply_events_to evs c2) =
      car_distance ops c1 c2 := by
  obtain ⟨_, hx1, hy1, _, _, _, _⟩ := apply_events_to_fields evs c1
  obtain ⟨_, hx2, hy2, _, _, _, _⟩ := apply_events_to_fields evs c2
  unfold car_distance
  rw [hx1, hy1, hx2, hy2]

theorem mk_collision_event_apply_events (ops : Ops) (t : ℚ) (evs : List CollisionEvent)
    (c1 c2 : Car) :
    mk_collision_event ops t (apply_events_to evs c1) (apply_events_to evs c2) =
      mk_collision_event ops t c1 c2 := by
  obtain ⟨hid1, hx1, hy1, hw1, hv1, _, hl1⟩ := apply_events_to_fields evs c1
  obtain ⟨hid2, hx2, hy2, hw2, hv2, _, hl2⟩ := apply_events_to_fields evs c2
  unfold mk_collision_event severity_of
  rw [hid1, hx1, hy1, hw1, hv1, hl1, hid2, hx2, hy2, hw2, hv2, hl2]

theorem cc_state_of_append_none (ops : Ops) (r t : ℚ) (cars : List Car)
    (processed : List (ℕ × ℕ)) (p : ℕ × ℕ) (h : detect ops r t cars p = none) :
    cc_state_of ops r t cars (processed ++ [p]) = cc_state_of ops r t cars processed := by
  unfold cc_state_of
  rw [List.filterMap_append]
  simp [h]

theorem cc_state_of_append_some (ops : Ops) (r t : ℚ) (cars : List Car)
    (processed : List (ℕ × ℕ)) (p : ℕ × ℕ) (e : CollisionEvent)
    (h : detect ops r t cars p = some e) :
    cc_state_of ops r t cars (processed ++ [p]) =
      (cars.map (apply_events_to (processed.filterMap (detect ops r t cars) ++ [e])),
       event_key e :: ((processed.filterMap (detect ops r t cars)).map event_key).reverse,
       processed.filterMap (detect ops r t cars) ++ [e]) := by
  unfold cc_state_of
  rw [List.filterMap_append]
  simp [h]

theorem pair_list_nodup (n : ℕ) : (pair_list n).Nodup := by
  unfold pair_list
  rw [List.nodup_flatMap]
  constructor
  · intro i _
    exact (List.nodup_range' _ _).map (fun x y hxy => by
      simpa using congrArg Prod.snd hxy)
  · rw [List.pairwise_iff_getElem]
    intro a b ha hb hab
    simp only [Function.onFun, List.getElem_range]
    intro p hp1 hp2
    simp only [List.mem_map] at hp1 hp2
    obtain ⟨j1, _, rfl⟩ := hp1
    obtain ⟨j2, _, heq⟩ := hp2
    have := congrArg Prod.fst heq
    simp only at this
    omega

theorem involves_of_id1 (e : CollisionEvent) (idv : ℕ) (h : e.car_id1 = idv) :
    involves idv e = true := by
  simp [involves, h]

theorem involves_of_id2 (e : CollisionEvent) (idv : ℕ) (h : e.car_id2 = idv) :
    involves idv e = true := by
  simp [involves, h]

theorem involves_ne (e : CollisionEvent) (idv : ℕ) (h1 : e.car_id1 ≠ idv)
    (h2 : e.car_id2 ≠ idv) : involves idv e = false := by
  simp [involves, h1, h2]

theorem detect_some_key (ops : Ops) (r t : ℚ) (cars : List Car) (p : ℕ × ℕ)
    (e : CollisionEvent) (h : detect ops r t cars p = some e) :
    event_key e =
      pair_key (cars.getD p.1 default).car_id (cars.getD p.2 default).car_id := by
  unfold detect at h
  split at h
  · rw [Option.some.injEq] at h
    rw [← h]
    rfl
  · exact Option.noConfusion h

theorem roster_set_hits (cars : List Car) (hids : (cars.map Car.car_id).Nodup)
    (evs : List CollisionEvent) (e : CollisionEvent) (i j : ℕ)
    (hi : i < cars.length) (hj : j < cars.length) (hij : i ≠ j)
    (he1 : e.car_id1 = (cars.getD i default).car_id)
    (he2 : e.car_id2 = (cars.getD j default).car_id) :
    ((cars.map (apply_events_to evs)).set i
        (apply_collision_hit e.severity (apply_events_to evs (cars.getD i default)))).set j
      (apply_collision_hit e.severity (apply_events_to evs (cars.getD j default))) =
      cars.map (apply_events_to (evs ++ [e])) := by
  apply list_eq_of_getD
  · simp
  · intro k hk
    have hk' : k < cars.length := by simpa using hk
    rw [getD_map_apply cars (evs ++ [e]) k hk', apply_events_to_append]
    by_cases hkj : k = j
    · subst hkj
      rw [getD_set_self_car _ _ _ (by simpa using hj)]
      obtain ⟨hid, _, _, _, _, _, _⟩ := apply_events_to_fields evs (cars.getD k default)
      rw [hid, if_pos (involves_of_id2 e _ he2)]
    · rw [getD_set_ne_car _ _ _ _ hkj]
      by_cases hki : k = i
      · subst hki
        rw [getD_set_self_car _ _ _ (by simpa using hi)]
        obtain ⟨hid, _, _, _, _, _, _⟩ := apply_events_to_fields evs (cars.getD k default)
        rw [hid, if_pos (involves_of_id1 e _ he1)]
      · rw [getD_set_ne_car _ _ _ _ hki, getD_map_apply cars evs k hk']
        obtain ⟨hid, _, _, _, _, _, _⟩ := apply_events_to_fields evs (cars.getD k default)
        rw [hid]
        have hne1 : e.car_id1 ≠ (cars.getD k default).car_id := by
          rw [he1]
          intro hcontra
          exact hki (ids_injective cars hids i k hi hk' hcontra).symm
        have hne2 : e.car_id2 ≠ (cars.getD k default).car_id := by
          rw [he2]
          intro hcontra
          exact hkj (ids_injective cars hids j k hj hk' hcontra).symm
        rw [involves_ne e _ hne1 hne2, if_neg Bool.false_ne_true]

theorem cc_pair_step_state (ops : Ops) (r t : ℚ) (cars : List Car)
    (hids : (cars.map Car.car_id).Nodup) (processed : List (ℕ × ℕ))
    (hproc : ∀ p ∈ processed, p.1 < p.2 ∧ p.2 < cars.length)
    (i j : ℕ) (hij : i < j) (hj : j < cars.length)
    (helim1 : (cars.getD i default).eliminated = false)
    (hfresh : (i, j) ∉ processed) :
    cc_pair_step ops r t i j (cc_state_of ops r t cars processed) =
      cc_state_of ops r t cars (processed ++ [(i, j)]) := by
  have hi : i < cars.length := lt_trans hij hj
  have hcar1 : (cc_state_of ops r t cars processed).1.getD i default =
      apply_events_to (processed.filterMap (detect ops r t cars))
        (cars.getD i default) := by
    unfold cc_state_of
    exact getD_map_apply cars _ i hi
  have hcar2 : (cc_state_of ops r t cars processed).1.getD j default =
      apply_events_to (processed.filterMap (detect ops r t cars))
        (cars.getD j default) := by
    unfold cc_state_of
    exact getD_map_apply cars _ j hj
  have hros : (cc_state_of ops r t cars processed).1 =
      cars.map (apply_events_to (processed.filterMap (detect ops r t cars))) := rfl
  have hseen : (cc_state_of ops r t cars processed).2.1 =
      ((processed.filterMap (detect ops r t cars)).map event_key).reverse := rfl
  have hevs : (cc_state_of ops r t cars processed).2.2 =
      processed.filterMap (detect ops r t cars) := rfl
  obtain ⟨hid1, _, _, _, _, he1, _⟩ :=
    apply_events_to_fields (processed.filterMap (detect ops r t cars)) (cars.getD i default)
  obtain ⟨hid2, _, _, _, _, he2, _⟩ :=
    apply_events_to_fields (processed.filterMap (detect ops r t cars)) (cars.getD j default)
  simp only [cc_pair_step]
  rw [hcar1, hcar2, hros, hseen, hevs, hid1, hid2, he2, car_distance_apply_events,
    mk_collision_event_apply_events]
  by_cases helim2 : (cars.getD j default).eliminated = true
  · rw [if_pos helim2]
    have hcb : collides_b ops r (cars.getD i default) (cars.getD j default) = false := by
      unfold collides_b
      rw [helim2]
      simp
    have hdet : detect ops r t cars (i, j) = none := by
      simp only [detect]
      rw [hcb, if_neg Bool.false_ne_true]
    rw [cc_state_of_append_none ops r t cars processed (i, j) hdet]
  · rw [if_neg helim2]
    have helim2f : (cars.getD j default).eliminated = false := by
      cases h : (cars.getD j default).eliminated
      · rfl
      · exact absurd h helim2
    have hnot : pair_key (cars.getD i default).car_id (cars.getD j default).car_id ∉
        ((processed.filterMap (detect ops r t cars)).map event_key).reverse := by
      intro hmem
      rw [List.mem_reverse] at hmem
      obtain ⟨e, he, hkey⟩ := List.mem_map.mp hmem
      obtain ⟨p, hp, hdet⟩ := List.mem_filterMap.mp he
      have hkey2 := detect_some_key ops r t cars p e hdet
      rw [hkey2] at hkey
      obtain ⟨hv1, hv2⟩ := hproc p hp
      rcases (pair_key_eq_iff _ _ _ _).mp hkey with ⟨ha, hb⟩ | ⟨ha, hb⟩
      · have e1 : p.1 = i := ids_injective cars hids p.1 i (lt_trans hv1 hv2) hi ha
        have e2 : p.2 = j := ids_injective cars hids p.2 j hv2 hj hb
        have hpij : (i, j) = p := by
          rw [← e1, ← e2]
        exact hfresh (hpij ▸ hp)
      · have e1 : p.1 = j := ids_injective cars hids p.1 j (lt_trans hv1 hv2) hj ha
        have e2 : p.2 = i := ids_injective cars hids p.2 i hv2 hi hb
        omega
    rw [if_neg hnot]
    by_cases hdist : car_distance ops (cars.getD i default) (cars.getD j default) < r
    · rw [if_pos hdist]
      have hcb : collides_b ops r (cars.getD i default) (cars.getD j default) = true := by
        unfold collides_b
        rw [helim1, helim2f]
        simpa using hdist
      have hdet : detect ops r t cars (i, j) =
          some (mk_collision_event ops t (cars.getD i default) (cars.getD j default)) := by
        simp only [detect]
        rw [hcb, if_pos rfl]
      rw [cc_state_of_append_some ops r t cars processed (i, j) _ hdet]
      rw [roster_set_hits cars hids (processed.filterMap (detect ops r t cars))
        (mk_collision_event ops t (cars.getD i default) (cars.getD j default)) i j hi hj
        (Nat.ne_of_lt hij) rfl rfl]
      rfl
    · rw [if_neg hdist]
      have hcb : collides_b ops r (cars.getD i default) (cars.getD j default) = false := by
        unfold collides_b
        rw [helim1, helim2f]
        simpa using hdist
      have hdet : detect ops r t cars (i, j) = none := by
        simp only [detect]
        rw [hcb, if_neg Bool.false_ne_true]
      rw [cc_state_of_append_none ops r t cars processed (i, j) hdet]

theorem cc_state_of_append_none_list (ops : Ops) (r t : ℚ) (cars : List Car)
    (processed ps : List (ℕ × ℕ)) (h : ∀ p ∈ ps, detect ops r t cars p = none) :
    cc_state_of ops r t cars (processed ++ ps) = cc_state_of ops r t cars processed := by
  have h2 : ∀ (qs : List (ℕ × ℕ)), (∀ p ∈ qs, detect ops r t cars p = none) →
      qs.filterMap (detect ops r t cars) = [] := by
    intro qs
    induction qs with
    | nil => intro _; rfl
    | cons q qs ih =>
      intro hq
      rw [List.filterMap_cons, hq q (List.mem_cons_self q qs)]
      exact ih (fun p hp => hq p (List.mem_cons_of_mem q hp))
  unfold cc_state_of
  rw [List.filterMap_append, h2 ps h, List.append_nil]

theorem cc_inner_go_state (ops : Ops) (r t : ℚ) (cars : List Car)
    (hids : (cars.map Car.car_id).Nodup) (i : ℕ)
    (helim1 : (cars.getD i default).eliminated = false) (js : List ℕ) :
    ∀ (processed : List (ℕ × ℕ)),
      (∀ p ∈ processed, p.1 < p.2 ∧ p.2 < cars.length) →
      (∀ j ∈ js, i < j ∧ j < cars.length ∧ (i, j) ∉ processed) →
      js.Nodup →
      cc_inner_go ops r t i js (cc_state_of ops r t cars processed) =
        cc_state_of ops r t cars (processed ++ js.map (fun j => (i, j))) := by
  induction js with
  | nil =>
    intro processed _ _ _
    simp [cc_inner_go]
  | cons j js ih =>
    intro processed hproc hjs hnd
    obtain ⟨hij, hjn, hfresh⟩ := hjs j (List.mem_cons_self j js)
    simp only [cc_inner_go]
    rw [cc_pair_step_state ops r t cars hids processed hproc i j hij hjn helim1 hfresh]
    have hp' : ∀ p ∈ processed ++ [(i, j)], p.1 < p.2 ∧ p.2 < cars.length := by
      intro p hp
      rcases List.mem_append.mp hp with h | h
      · exact hproc p h
      · have hpij : p = (i, j) := by simpa using h
        subst hpij
        exact ⟨hij, hjn⟩
    have hf' : ∀ j2 ∈ js, i < j2 ∧ j2 < cars.length ∧ (i, j2) ∉ processed ++ [(i, j)] := by
      intro j2 hj2
      obtain ⟨h1, h2, h3⟩ := hjs j2 (List.mem_cons_of_mem j hj2)
      refine ⟨h1, h2, fun hmem => ?_⟩
      rcases List.mem_append.mp hmem with h | h
      · exact h3 h
      · have heq : ((i, j2) : ℕ × ℕ) = (i, j) := by simpa using h
        have hjj : j2 = j := congrArg Prod.snd heq
        exact (List.nodup_cons.mp hnd).1 (hjj ▸ hj2)
    rw [ih (processed ++ [(i, j)]) hp' hf' (List.nodup_cons.mp hnd).2, List.append_assoc]
    rfl

theorem cc_outer_step_state (ops : Ops) (r t : ℚ) (cars : List Car)
    (hids : (cars.map Car.car_id).Nodup) (processed : List (ℕ × ℕ))
    (hproc : ∀ p ∈ processed, p.1 < p.2 ∧ p.2 < cars.length)
    (i : ℕ) (hi : i < cars.length)
    (hfresh : ∀ j, (i, j) ∉ processed) :
    cc_outer_step ops r t cars.length i (cc_state_of ops r t cars processed) =
      cc_state_of ops r t cars (processed ++
        (List.range' (i + 1) (cars.length - (i + 1))).map (fun j => (i, j))) := by
  have hcar1 : (cc_state_of ops r t cars processed).1.getD i default =
      apply_events_to (processed.filterMap (detect ops r t cars))
        (cars.getD i default) := by
    unfold cc_state_of
    exact getD_map_apply cars _ i hi
  obtain ⟨_, _, _, _, _, he1, _⟩ := apply_events_to_fields
    (processed.filterMap (detect ops r t cars)) (cars.getD i default)
  simp only [cc_outer_step]
  rw [hcar1, he1]
  by_cases helim : (cars.getD i default).eliminated = true
  · rw [if_pos helim,
      cc_state_of_append_none_list ops r t cars processed _ ?hnone]
    case hnone =>
      intro p hp
      obtain ⟨j2, _, rfl⟩ := List.mem_map.mp hp
      have hcb : collides_b ops r (cars.getD i default) (cars.getD j2 default) = false := by
        unfold collides_b
        rw [helim]
        simp
      simp only [detect]
      rw [hcb, if_neg Bool.false_ne_true]
  · rw [if_neg helim]
    have helimf : (cars.getD i default).eliminated = false := by
      cases h : (cars.getD i default).eliminated
      · rfl
      · exact absurd h helim
    refine cc_inner_go_state ops r t cars hids i helimf _ processed hproc ?_
      (List.nodup_range' _ _)
    intro j hj
    obtain ⟨k, hk, rfl⟩ := List.mem_range'.mp hj
    exact ⟨by omega, by omega, hfresh _⟩

theorem cc_outer_go_state (ops : Ops) (r t : ℚ) (cars : List Car)
    (hids : (cars.map Car.car_id).Nodup) (is2 : List ℕ) :
    ∀ (processed : List (ℕ × ℕ)),
      (∀ p ∈ processed, p.1 < p.2 ∧ p.2 < cars.length) →
      (∀ a ∈ is2, a < cars.length ∧ ∀ j, (a, j) ∉ processed) →
      is2.Nodup →
      cc_outer_go ops r t cars.length is2 (cc_state_of ops r t cars processed) =
        cc_state_of ops r t cars (processed ++ is2.flatMap (fun a =>
          (List.range' (a + 1) (cars.length - (a + 1))).map (fun j => (a, j)))) := by
  induction is2 with
  | nil =>
    intro processed _ _ _
    simp [cc_outer_go]
  | cons a is2 ih =>
    intro processed hproc hfr hnd
    obtain ⟨han, hafr⟩ := hfr a (List.mem_cons_self a is2)
    simp only [cc_outer_go]
    rw [cc_outer_step_state ops r t cars hids processed hproc a han hafr]
    have hproc' : ∀ p ∈ processed ++
        (List.range' (a + 1) (cars.length - (a + 1))).map (fun j => (a, j)),
        p.1 < p.2 ∧ p.2 < cars.length := by
      intro p hp
      rcases List.mem_append.mp hp with h | h
      · exact hproc p h
      · obtain ⟨j2, hj2, rfl⟩ := List.mem_map.mp h
        obtain ⟨k, hk, rfl⟩ := List.mem_range'.mp hj2
        exact ⟨by omega, by omega⟩
    have hfr' : ∀ b ∈ is2, b < cars.length ∧ ∀ j, (b, j) ∉ processed ++
        (List.range' (a + 1) (cars.length - (a + 1))).map (fun j => (a, j)) := by
      intro b hb
      obtain ⟨hbn, hbfr⟩ := hfr b (List.mem_cons_of_mem a hb)
      refine ⟨hbn, fun j hmem => ?_⟩
      rcases List.mem_append.mp hmem with h | h
      · exact hbfr j h
      · obtain ⟨j2, _, heq⟩ := List.mem_map.mp h
        have hab : a = b := congrArg Prod.fst heq
        exact (List.nodup_cons.mp hnd).1 (hab ▸ hb)
    rw [ih _ hproc' hfr' (List.nodup_cons.mp hnd).2, List.append_assoc]
    rfl

theorem check_collisions_eq (ops : Ops) (r t : ℚ) (cars : List Car)
    (hids : (cars.map Car.car_id).Nodup) :
    check_collisions ops r cars t =
      (cars.map (apply_events_to (spec_events ops r t cars)), spec_events ops r t cars) := by
  have h0 : (cars, ([] : List (ℕ × ℕ)), ([] : List CollisionEvent)) =
      cc_state_of ops r t cars [] := by
    unfold cc_state_of
    simp only [List.filterMap_nil, List.map_nil, List.reverse_nil]
    have hm : cars.map (apply_events_to []) = cars := by
      have hc : ∀ a ∈ cars, apply_events_to [] a = id a := fun a _ => rfl
      rw [List.map_congr_left hc, List.map_id]
    rw [hm]
  simp only [check_collisions]
  rw [h0]
  rw [cc_outer_go_state ops r t cars hids (List.range cars.length) [] (by simp) ?f
    (List.nodup_range _)]
  case f =>
    intro a ha
    exact ⟨List.mem_range.mp ha, fun j h => List.not_mem_nil _ h⟩
  have hpl : ([] : List (ℕ × ℕ)) ++ (List.range cars.length).flatMap (fun a =>
      (List.range' (a + 1) (cars.length - (a + 1))).map (fun j => (a, j))) =
      pair_list cars.length := by
    rw [List.nil_append]
    rfl
  rw [hpl]
  rfl

theorem detect_keys_nodup_aux (ops : Ops) (r t : ℚ) (cars : List Car)
    (hids : (cars.map Car.car_id).Nodup) :
    ∀ (ps : List (ℕ × ℕ)), ps.Nodup →
      (∀ p ∈ ps, p.1 < p.2 ∧ p.2 < cars.length) →
      ((ps.filterMap (detect ops r t cars)).map event_key).Nodup := by
  intro ps
  induction ps with
  | nil =>
    intro _ _
    simp
  | cons p ps ih =>
    intro hnd hval
    rw [List.filterMap_cons]
    cases hdp : detect ops r t cars p with
    | none =>
      exact ih (List.nodup_cons.mp hnd).2 (fun q hq => hval q (List.mem_cons_of_mem p hq))
    | some e =>
      rw [List.map_cons, List.nodup_cons]
      refine ⟨?_, ih (List.nodup_cons.mp hnd).2
        (fun q hq => hval q (List.mem_cons_of_mem p hq))⟩
      intro hmem
      obtain ⟨e2, he2, hkey⟩ := List.mem_map.mp hmem
      obtain ⟨q, hq, hdq⟩ := List.mem_filterMap.mp he2
      have hk1 := detect_some_key ops r t cars p e hdp
      have hk2 := detect_some_key ops r t cars q e2 hdq
      obtain ⟨hp1, hp2⟩ := hval p (List.mem_cons_self p ps)
      obtain ⟨hq1, hq2⟩ := hval q (List.mem_cons_of_mem p hq)
      rw [hk2, hk1] at hkey
      rcases (pair_key_eq_iff _ _ _ _).mp hkey with ⟨ha, hb⟩ | ⟨ha, hb⟩
      · have e1 : q.1 = p.1 :=
          ids_injective cars hids q.1 p.1 (lt_trans hq1 hq2) (lt_trans hp1 hp2) ha
        have e2' : q.2 = p.2 := ids_injective cars hids q.2 p.2 hq2 hp2 hb
        have hqp : q = p := by
          rw [← Prod.mk.eta (p := q), ← Prod.mk.eta (p := p), e1, e2']
        exact (List.nodup_cons.mp hnd).1 (hqp ▸ hq)
      · have e1 : q.1 = p.2 :=
          ids_injective cars hids q.1 p.2 (lt_trans hq1 hq2) hp2 ha
        have e2' : q.2 = p.1 :=
          ids_injective cars hids q.2 p.1 hq2 (lt_trans hp1 hp2) hb
        omega

theorem spec_events_keys_nodup (ops : Ops) (r t : ℚ) (cars : List Car)
    (hids : (cars.map Car.car_id).Nodup) :
    ((spec_events ops r t cars).map event_key).Nodup := by
  unfold spec_events
  refine detect_keys_nodup_aux ops r t cars hids _ (pair_list_nodup _) ?_
  intro p hp
  have hm := (pair_list_mem cars.length p.1 p.2).mp (by rwa [Prod.mk.eta])
  exact hm

theorem filter_eq_singleton_of_keys_nodup {α β : Type} [DecidableEq β] (k : α → β) :
    ∀ (l : List α), (l.map k).Nodup → ∀ x ∈ l,
      l.filter (fun e => k e = k x) = [x] := by
  intro l
  induction l with
  | nil =>
    intro _ x hx
    exact absurd hx (List.not_mem_nil x)
  | cons a l ih =>
    intro hnd x hx
    rw [List.map_cons] at hnd
    obtain ⟨hnotin, hnd2⟩ := List.nodup_cons.mp hnd
    rw [List.filter_cons]
    rcases List.mem_cons.mp hx with rfl | hx2
    · rw [if_pos (by simp)]
      have hnil : l.filter (fun e => decide (k e = k x)) = [] := by
        rw [List.filter_eq_nil_iff]
        intro e he
        simp only [decide_eq_true_eq]
        intro hke
        exact hnotin (hke ▸ List.mem_map_of_mem k he)
      rw [hnil]
    · have hka : ¬ (k a = k x) := by
        intro h
        exact hnotin (h ▸ List.mem_map_of_mem k hx2)
      rw [if_neg (by simpa using hka)]
      exact ih hnd2 x hx2

theorem detect_roster (ops : Ops) (r t2 : ℚ) (cars : List Car)
    (evs : List CollisionEvent) (p : ℕ × ℕ)
    (h1 : p.1 < cars.length) (h2 : p.2 < cars.length) :
    detect ops r t2 (cars.map (apply_events_to evs)) p = detect ops r t2 cars p := by
  obtain ⟨_, _, _, _, _, hel1, _⟩ := apply_events_to_fields evs (cars.getD p.1 default)
  obtain ⟨_, _, _, _, _, hel2, _⟩ := apply_events_to_fields evs (cars.getD p.2 default)
  have hcb : collides_b ops r (apply_events_to evs (cars.getD p.1 default))
      (apply_events_to evs (cars.getD p.2 default)) =
      collides_b ops r (cars.getD p.1 default) (cars.getD p.2 default) := by
    unfold collides_b
    rw [hel1, hel2, car_distance_apply_events]
  unfold detect
  rw [getD_map_apply cars evs p.1 h1, getD_map_apply cars evs p.2 h2, hcb,
    mk_collision_event_apply_events]

theorem spec_events_roster (ops : Ops) (r t2 : ℚ) (cars : List Car)
    (evs : List CollisionEvent) :
    spec_events ops r t2 (cars.map (apply_events_to evs)) = spec_events ops r t2 cars := by
  unfold spec_events
  rw [List.length_map]
  apply List.filterMap_congr
  intro p hp
  have hm := (pair_list_mem cars.length p.1 p.2).mp (by rwa [Prod.mk.eta])
  exact detect_roster ops r t2 cars evs p (lt_trans hm.1 hm.2) hm.2

theorem spec_events_keys_time (ops : Ops) (r t t2 : ℚ) (cars : List Car) :
    (spec_events ops r t2 cars).map event_key =
      (spec_events ops r t cars).map event_key := by
  unfold spec_events
  rw [List.map_filterMap, List.map_filterMap]
  apply List.filterMap_congr
  intro p _
  unfold detect
  by_cases h : collides_b ops r (cars.getD p.1 default) (cars.getD p.2 default) = true
  · rw [if_pos h, if_pos h]
    rfl
  · rw [if_neg h, if_neg h]

theorem roster_ids (cars : List Car) (evs : List CollisionEvent) :
    (cars.map (apply_events_to evs)).map Car.car_id = cars.map Car.car_id := by
  rw [List.map_map]
  exact List.map_congr_left fun a _ => (apply_events_to_fields evs a).1

/-- A second car 5 m away from the origin (3-4-5 triangle) moving at 5 m/s. -/
def carC6b : Car := { mkTestCar 1 3 5 with y := 4 }

/-- The two-car roster of the collision-pass witness: distance 5, both active. -/
def carsC6 : List Car := [mkTestCar 0 0 0, carC6b]

/-- C6: A single `check_collisions` call reports each unordered id pair at most
once (the reported pair keys are pairwise distinct); for every index pair
`i < j` of non-eliminated cars closer than the collision radius it records
exactly one event for that pair, whose severity is the magnitude of the pair's
relative-velocity vector; every car's collision counter grows by the number of
events involving it and its total severity by the sum of their severities; and
a second call on the returned roster reports exactly the same pair keys
again. -/
theorem check_collisions_spec (ops : Ops) (r t t2 : ℚ) (cars : List Car)
    (hids : (cars.map Car.car_id).Nodup) :
    (((check_collisions ops r cars t).2).map event_key).Nodup ∧
    (∀ i j, i < j → j < cars.length →
      (cars.getD i default).eliminated = false →
      (cars.getD j default).eliminated = false →
      car_distance ops (cars.getD i default) (cars.getD j default) < r →
      ((check_collisions ops r cars t).2).filter (fun e =>
          event_key e = pair_key (cars.getD i default).car_id
            (cars.getD j default).car_id) =
        [mk_collision_event ops t (cars.getD i default) (cars.getD j default)] ∧
      (mk_collision_event ops t (cars.getD i default) (cars.getD j default)).severity =
        severity_of ops (cars.getD i default) (cars.getD j default)) ∧
    (∀ k, k < cars.length →
      ((check_collisions ops r cars t).1.getD k default).collision_count =
        (cars.getD k default).collision_count +
          (((check_collisions ops r cars t).2).filter
            (involves (cars.getD k default).car_id)).length ∧
      ((check_collisions ops r cars t).1.getD k default).total_collision_severity =
        (cars.getD k default).total_collision_severity +
          ((((check_collisions ops r cars t).2).filter
            (involves (cars.getD k default).car_id)).map
              (fun e => e.severity)).sum) ∧
    ((check_collisions ops r (check_collisions ops r cars t).1 t2).2).map event_key =
      ((check_collisions ops r cars t).2).map event_key := by
  have hcc := check_collisions_eq ops r t cars hids
  refine ⟨?_, ?_, ?_, ?_⟩
  · rw [hcc]
    exact spec_events_keys_nodup ops r t cars hids
  · intro i j hij hj he1 he2 hdist
    have hi : i < cars.length := lt_trans hij hj
    have hcb : collides_b ops r (cars.getD i default) (cars.getD j default) = true := by
      unfold collides_b
      rw [he1, he2]
      simpa using hdist
    have hdet : detect ops r t cars (i, j) =
        some (mk_collision_event ops t (cars.getD i default) (cars.getD j default)) := by
      simp only [detect]
      rw [hcb, if_pos rfl]
    have hmem : mk_collision_event ops t (cars.getD i default) (cars.getD j default) ∈
        spec_events ops r t cars :=
      List.mem_filterMap.mpr ⟨(i, j), (pair_list_mem cars.length i j).mpr ⟨hij, hj⟩, hdet⟩
    constructor
    · rw [hcc]
      exact filter_eq_singleton_of_keys_nodup event_key (spec_events ops r t cars)
        (spec_events_keys_nodup ops r t cars hids) _ hmem
    · rfl
  · intro k hk
    rw [hcc, getD_map_apply cars _ k hk]
    exact apply_events_to_counts (spec_events ops r t cars) (cars.getD k default)
  · rw [hcc]
    have hids2 : ((cars.map (apply_events_to (spec_events ops r t cars))).map
        Car.car_id).Nodup := by
      rw [roster_ids]
      exact hids
    have hcc2 := check_collisions_eq ops r t2
      (cars.map (apply_events_to (spec_events ops r t cars))) hids2
    show ((check_collisions ops r
        (cars.map (apply_events_to (spec_events ops r t cars))) t2).2).map event_key =
      (spec_events ops r t cars).map event_key
    rw [hcc2]
    show (spec_events ops r t2
        (cars.map (apply_events_to (spec_events ops r t cars)))).map event_key =
      (spec_events ops r t cars).map event_key
    rw [spec_events_roster]
    exact spec_events_keys_time ops r t t2 cars

theorem check_collisions_spec_witness :
    ((carsC6.map Car.car_id).Nodup) ∧
    ((((check_collisions opsD 6 carsC6 0).2).map event_key).Nodup ∧
    (∀ i j, i < j → j < carsC6.length →
      (carsC6.getD i default).eliminated = false →
      (carsC6.getD j default).eliminated = false →
      car_distance opsD (carsC6.getD i default) (carsC6.getD j default) < 6 →
      ((check_collisions opsD 6 carsC6 0).2).filter (fun e =>
          event_key e = pair_key (carsC6.getD i default).car_id
            (carsC6.getD j default).car_id) =
        [mk_collision_event opsD 0 (carsC6.getD i default) (carsC6.getD j default)] ∧
      (mk_collision_event opsD 0 (carsC6.getD i default) (carsC6.getD j default)).severity =
        severity_of opsD (carsC6.getD i default) (carsC6.getD j default)) ∧
    (∀ k, k < carsC6.length →
      ((check_collisions opsD 6 carsC6 0).1.getD k default).collision_count =
        (carsC6.getD k default).collision_count +
          (((check_collisions opsD 6 carsC6 0).2).filter
            (involves (carsC6.getD k default).car_id)).length ∧
      ((check_collisions opsD 6 carsC6 0).1.getD k default).total_collision_severity =
        (carsC6.getD k default).total_collision_severity +
          ((((check_collisions opsD 6 carsC6 0).2).filter
            (involves (carsC6.getD k default).car_id)).map
              (fun e => e.severity)).sum) ∧
    ((check_collisions opsD 6 (check_collisions opsD 6 carsC6 0).1 1).2).map event_key =
      ((check_collisions opsD 6 carsC6 0).2).map event_key) :=
  ⟨by decide, check_collisions_spec opsD 6 0 1 carsC6 (by decide)⟩

end Racing
